import Mathlib

/-!
Verification development for the esigner-codesign action.

This file shallowly embeds the input-to-command translation and
execution-control logic of the repository:

* the command parameter builder (`appendParameter`, `assembleCommandString`,
  from `util.ts`),
* the execution-outcome classifier (`detectExecutionErrors` /
  `hasExecutionError` and the tail of `main`),
* the malware pre-scan loop (`SigningToolManager.performMalwareScan`,
  `buildScanCommand`) and the slice of `main` that drives it,
* the configuration writer (`SigningToolManager.writeConfiguration`),
* the shell-prefix resolver (`resolveUserShell`),
* the semantic-version utilities (`checkVersionCompatibility`) and the JDK
  installer lifecycle (`JdkInstallationBase.performSetup` with its cache
  search, `formatCacheVersionName`, `normalizeVersionString`).

External collaborators (the actions runtime, the filesystem, process
execution, the network) are modelled explicitly: inputs and environment
variables as finite maps, the filesystem as a set of directories, process
execution as an oracle from command strings to captured output.  JavaScript
string primitives (`String.replace` with a string pattern, `includes`,
`toUpperCase`) are re-implemented over `List Char` so that every definition
is executable by the kernel.
-/

/-! ### JavaScript string primitives, modelled over `List Char` -/

/-- Split a character list on a separator character; mirrors
`String.prototype.split` with a single-character separator
(`"".split(c)` gives `[""]`). -/
def splitOnChar (sep : Char) : List Char → List (List Char)
  | [] => [[]]
  | c :: cs =>
    let rest := splitOnChar sep cs
    if c = sep then [] :: rest
    else
      match rest with
      | [] => [[c]]
      | r :: rs => (c :: r) :: rs

/-- Replace the first occurrence of `pat` in a character list by `rep`;
mirrors `String.prototype.replace` with a string pattern, which replaces
only the first occurrence. -/
def listReplaceFirst (pat rep : List Char) : List Char → List Char
  | [] => if pat.isEmpty then rep else []
  | c :: cs =>
    if pat.isPrefixOf (c :: cs) then rep ++ (c :: cs).drop pat.length
    else c :: listReplaceFirst pat rep cs

/-- Substring test on character lists; mirrors `String.prototype.includes`. -/
def listIncludes (pat : List Char) : List Char → Bool
  | [] => pat.isEmpty
  | c :: cs => pat.isPrefixOf (c :: cs) || listIncludes pat cs

/-- Model of `String.prototype.replace` with a string pattern (first occurrence only). -/
def jsReplace (s pat rep : String) : String :=
  (listReplaceFirst pat.toList rep.toList s.toList).asString

/-- Model of `String.prototype.includes`. -/
def jsIncludes (s pat : String) : Bool :=
  listIncludes pat.toList s.toList

/-- ASCII upper-casing of one character (the inputs handled by the action are
ASCII); mirrors `String.prototype.toUpperCase` per character. -/
def asciiUpper (c : Char) : Char :=
  if 'a' ≤ c ∧ c ≤ 'z' then Char.ofNat (c.toNat - 32) else c

/-- Model of `String.prototype.toUpperCase` for ASCII strings. -/
def jsToUpperCase (s : String) : String :=
  (s.toList.map asciiUpper).asString

/-- Join a list of strings with a separator; mirrors `Array.prototype.join`. -/
def joinSep (sep : String) : List String → String
  | [] => ""
  | [s] => s
  | s :: rest => s ++ sep ++ joinSep sep rest

/-! ### Path normalization and the filesystem model

`path.normalize` / `path.join` are modelled after Node's POSIX
implementation: split on `/`, drop empty and `.` segments, resolve `..`,
and reassemble.  The filesystem is a set of directories, each named by its
list of path segments; the working directory / root (the empty segment
list) always exists. -/

/-- Node's `normalizeString`: resolve `.` and `..` segments.  The first
argument is Node's `allowAboveRoot` (true for relative paths); the second
is the accumulator stack in reverse order. -/
def normSegs (allowAboveRoot : Bool) : List String → List String → List String
  | stack, [] => stack.reverse
  | stack, seg :: rest =>
    if seg = "" ∨ seg = "." then normSegs allowAboveRoot stack rest
    else if seg = ".." then
      match stack with
      | [] => normSegs allowAboveRoot (if allowAboveRoot then [".."] else []) rest
      | top :: below =>
        if top = ".." then normSegs allowAboveRoot (".." :: top :: below) rest
        else normSegs allowAboveRoot below rest
    else normSegs allowAboveRoot (seg :: stack) rest

/-- Node `path.posix.normalize`. -/
def normalizePath (p : String) : String :=
  let cs := p.toList
  if cs.isEmpty then "."
  else
    let isAbs := match cs with
      | '/' :: _ => true
      | _ => false
    let trailingSep := match cs.getLast? with
      | some '/' => true
      | _ => false
    let segs := normSegs (!isAbs) [] ((splitOnChar '/' cs).map List.asString)
    let body := joinSep "/" segs
    if body = "" then
      if isAbs then "/" else if trailingSep then "./" else "."
    else
      let body2 := if trailingSep then body ++ "/" else body
      if isAbs then "/" ++ body2 else body2

/-- Node `path.posix.join` of two parts: concatenate with a separator and
normalize, skipping empty parts. -/
def joinPath (a b : String) : String :=
  if a = "" ∧ b = "" then "."
  else if a = "" then normalizePath b
  else if b = "" then normalizePath a
  else normalizePath (a ++ "/" ++ b)

/-- The directories existing on disk, each as its list of path segments. -/
structure FileSystem where
  dirs : List (List String)
deriving DecidableEq, Repr

/-- Path segments of a path string (absolute and relative paths are
interpreted against a common root). -/
def pathSegments (p : String) : List String :=
  ((splitOnChar '/' p.toList).map List.asString).filter (fun s => s ≠ "")

/-- Model of `fs.existsSync` on the directory model; the root always exists. -/
def existsSyncModel (fs : FileSystem) (p : String) : Bool :=
  pathSegments p = [] ∨ fs.dirs.contains (pathSegments p)

/-- Model of `fs.mkdirSync` without `recursive: true`: creates the single leaf
directory, failing with `ENOENT` when the parent directory is missing. -/
def mkdirSyncModel (fs : FileSystem) (p : String) : Except String FileSystem :=
  let segs := pathSegments p
  if segs.dropLast = [] ∨ fs.dirs.contains segs.dropLast then
    .ok ⟨segs :: fs.dirs⟩
  else
    .error "ENOENT"

/-! ### Constants (`constants.ts`) -/

/-- Model of `COMMAND_PARAMETERS`: the per-operation allow-list `Map`; `none` models
`Map.get` returning `undefined` for an unknown operation. -/
def COMMAND_PARAMETERS (action : String) : Option (List String) :=
  if action = "sign" then
    some ["username", "password", "credential_id", "totp_secret", "program_name",
          "file_path", "output_path", "malware_block", "override"]
  else if action = "batch_sign" then
    some ["username", "password", "credential_id", "totp_secret", "program_name",
          "dir_path", "output_path"]
  else if action = "scan_code" then
    some ["username", "password", "credential_id", "program_name"]
  else none

/-- Model of `supportCommands?.includes(inputKey)` from `appendParameter`
(an unknown operation yields `undefined`, which is falsy). -/
def isKeySupported (action inputKey : String) : Bool :=
  match COMMAND_PARAMETERS action with
  | some keys => keys.contains inputKey
  | none => false

/-- The candidate parameter keys, in the fixed order `assembleCommandString`
iterates over them. -/
def candidateParameterKeys : List String :=
  ["username", "password", "credential_id", "totp_secret", "program_name",
   "file_path", "dir_path", "output_path", "override", "malware_block"]

/-! ### Inputs, environment, and the parameter builder (`util.ts`) -/

/-- The ambient actions runtime: configuration inputs (`core.getInput`,
returning `""` for an unset input), the process environment (an ordered
association list, mirroring JavaScript object key order), and
`fs.readdirSync` for directory listings. -/
structure ActionEnv where
  getInput : String → String
  envVars : List (String × String)
  readdir : String → List String

/-- Model of `expandEnvironmentVars`: for each environment key, replace the first
occurrence of the corresponding placeholder. -/
def expandEnvironmentVars (env : List (String × String)) (input : String) : String :=
  env.foldl (fun result kv => jsReplace result ("$\x7b" ++ kv.1 ++ "\x7d") kv.2) input

/-- Model of `fetchInputValue`: read an input and interpolate environment variables. -/
def fetchInputValue (A : ActionEnv) (inputKey : String) : String :=
  expandEnvironmentVars A.envVars (A.getInput inputKey)

/-- Model of `appendParameter` from `util.ts`: skip empty values, skip keys outside
the operation's allow-list, otherwise append the flag fragment for the key;
the `output_path` branch additionally creates the output directory when it
does not exist (a thrown filesystem error is modelled as `Except.error`). -/
def appendParameter (A : ActionEnv) (inputKey command action : String)
    (fs : FileSystem) : Except String (String × FileSystem) :=
  let inputValue := fetchInputValue A inputKey
  if inputValue = "" then .ok (command, fs)
  else if !(isKeySupported action inputKey) then .ok (command, fs)
  else if inputKey = "username" then
    .ok (command ++ " -username=\"" ++ inputValue ++ "\"", fs)
  else if inputKey = "password" then
    .ok (command ++ " -password=\"" ++ inputValue ++ "\"", fs)
  else if inputKey = "credential_id" then
    .ok (command ++ " -credential_id=\"" ++ inputValue ++ "\"", fs)
  else if inputKey = "totp_secret" then
    .ok (command ++ " -totp_secret=\"" ++ inputValue ++ "\"", fs)
  else if inputKey = "program_name" then
    .ok (command ++ " -program_name=\"" ++ inputValue ++ "\"", fs)
  else if inputKey = "file_path" then
    .ok (command ++ " -input_file_path=\"" ++ normalizePath inputValue ++ "\"", fs)
  else if inputKey = "dir_path" then
    .ok (command ++ " -input_dir_path=\"" ++ normalizePath inputValue ++ "\"", fs)
  else if inputKey = "output_path" then
    let nv := normalizePath inputValue
    if existsSyncModel fs nv then
      .ok (command ++ " -output_dir_path=\"" ++ nv ++ "\"", fs)
    else
      match mkdirSyncModel fs nv with
      | .ok fs2 => .ok (command ++ " -output_dir_path=\"" ++ nv ++ "\"", fs2)
      | .error e => .error e
  else if inputKey = "malware_block" then
    .ok (command ++ " -malware_block=" ++ inputValue, fs)
  else if inputKey = "override" then
    .ok (command ++ " -override=" ++ inputValue, fs)
  else .ok (command, fs)

/-- Model of `assembleCommandString`: start from the raw `command` input and fold
`appendParameter` over the candidate keys in their fixed order. -/
def assembleCommandString (A : ActionEnv) (action : String) (fs : FileSystem) :
    Except String (String × FileSystem) :=
  candidateParameterKeys.foldlM
    (fun acc key => appendParameter A key acc.1 action acc.2)
    (A.getInput "command", fs)

/-! ### Execution outcomes and their classification (`index.ts`) -/

/-- The captured result of one process execution
(`exec.getExecOutput`). The classifier never consults `exitCode`. -/
structure ExecResult where
  stdout : String
  stderr : String
  exitCode : Int
deriving DecidableEq, Repr

/-- The fixed list of literal error markers. -/
def errorIndicators : List String :=
  ["Error", "Exception", "Missing required option",
   "Unmatched arguments from", "Unmatched argument"]

/-- Model of `detectExecutionErrors` from `index.ts`. -/
def detectExecutionErrors (output : ExecResult) : Bool :=
  let hasErr := fun (stream : String) =>
    errorIndicators.any (fun indicator => jsIncludes stream indicator)
  hasErr output.stdout || hasErr output.stderr

/-- Model of `SigningToolManager.hasExecutionError` (same marker scan, duplicated in
the source). -/
def hasExecutionError (output : ExecResult) : Bool :=
  let chk := fun (stream : String) =>
    errorIndicators.any (fun pat => jsIncludes stream pat)
  chk output.stdout || chk output.stderr

/-- Terminal result of the run as reported to the pipeline. -/
inductive RunOutcome
  | failed (message : String)
  | published (key : String) (result : ExecResult)
deriving DecidableEq, Repr

/-- The tail of `main`: scan the main execution's output for error markers;
on a hit call `core.setFailed`, otherwise publish the raw result under the
`CodeSigner` output key. -/
def classifyMainExecution (executionResult : ExecResult) : RunOutcome :=
  if detectExecutionErrors executionResult then
    .failed "Something Went Wrong. Please try again."
  else
    .published "CodeSigner" executionResult

/-! ### The malware pre-scan (`setup-codesigner.ts`) and the driving slice
of `main` (`index.ts`)

Process execution is an oracle `runExec : String → ExecResult`; the slice
additionally records the trace of commands handed to the oracle, in
execution order. -/

/-- The fixed key list `buildScanCommand` loops over. -/
def scanParamKeys : List String :=
  ["username", "password", "credential_id", "program_name"]

/-- Model of `SigningToolManager.buildScanCommand`: start from the `scan_code`
operation token and fold `appendParameter` over the credential keys,
gated by the current operation's allow-list. -/
def buildScanCommand (A : ActionEnv) (operation : String) (fs : FileSystem) :
    Except String (String × FileSystem) :=
  scanParamKeys.foldlM
    (fun acc key => appendParameter A key acc.1 operation acc.2)
    ("scan_code", fs)

/-- The per-file loop of `performMalwareScan`: run the scan sub-command on
each directory entry in order, stopping at the first output that carries an
error marker.  Returns the success flag and the trace of executed scan
commands. -/
def scanLoop (runExec : String → ExecResult)
    (baseCommand scanCommand targetDirectory : String) :
    List String → Bool × List String
  | [] => (true, [])
  | entry :: rest =>
    let fullFilePath := joinPath targetDirectory entry
    let completeScanCmd :=
      baseCommand ++ " " ++ (scanCommand ++ " -input_file_path=\"" ++ fullFilePath ++ "\"")
    if hasExecutionError (runExec completeScanCmd) then (false, [completeScanCmd])
    else
      let res := scanLoop runExec baseCommand scanCommand targetDirectory rest
      (res.1, completeScanCmd :: res.2)

/-- Model of `SigningToolManager.performMalwareScan`. -/
def performMalwareScan (A : ActionEnv) (runExec : String → ExecResult)
    (baseCommand operation : String) (fs : FileSystem) :
    Except String (Bool × List String × FileSystem) := do
  let (scanCommand, fs1) ← buildScanCommand A operation fs
  let targetDirectory := normalizePath (fetchInputValue A "dir_path")
  let fileEntries := A.readdir targetDirectory
  let res := scanLoop runExec baseCommand scanCommand targetDirectory fileEntries
  pure (res.1, res.2, fs1)

/-- The execution-controlling slice of `main`: optional malware pre-scan for
`batch_sign` (aborting as failed on a scan hit, before the main command),
then the single main execution and its output classification.  (Log cleanup
runs no commands and is omitted.)  Returns the outcome and the trace of
executed commands. -/
def runSigningSlice (A : ActionEnv) (fs : FileSystem)
    (runExec : String → ExecResult) (toolCommand fullCommand : String) :
    Except String (RunOutcome × List String) := do
  let operationType := A.getInput "command"
  let malwareScanEnabled := A.getInput "malware_block"
  let shouldScan := jsToUpperCase malwareScanEnabled = "TRUE"
  if operationType = "batch_sign" ∧ shouldScan then do
    let (scanSuccess, trace, _fs2) ←
      performMalwareScan A runExec toolCommand operationType fs
    if !scanSuccess then
      pure (.failed "Something Went Wrong. Please try again.", trace)
    else
      let executionResult := runExec fullCommand
      pure (classifyMainExecution executionResult, trace ++ [fullCommand])
  else
    let executionResult := runExec fullCommand
    pure (classifyMainExecution executionResult, [fullCommand])

/-! ### Configuration writing (`setup-codesigner.ts`, `config.ts`) -/

/-- Model of `PROD_ENV_SETTINGS` from `config.ts`. -/
def PROD_ENV_SETTINGS : String :=
  joinSep "\n"
    ["CLIENT_ID=kaXTRACNijSWsFdRKg_KAfD3fqrBlzMbWs6TwWHwAn8",
     "OAUTH2_ENDPOINT=https://login.ssl.com/oauth2/token",
     "CSC_API_ENDPOINT=https://cs.ssl.com",
     "TSA_URL=http://ts.ssl.com",
     "TSA_LEGACY_URL=http://ts.ssl.com/legacy"]

/-- Model of `SANDBOX_ENV_SETTINGS` from `config.ts`. -/
def SANDBOX_ENV_SETTINGS : String :=
  joinSep "\n"
    ["CLIENT_ID=qOUeZCCzSqgA93acB3LYq6lBNjgZdiOxQc-KayC3UMw",
     "OAUTH2_ENDPOINT=https://oauth-sandbox.ssl.com/oauth2/token",
     "CSC_API_ENDPOINT=https://cs-try.ssl.com",
     "TSA_URL=http://ts.ssl.com",
     "TSA_LEGACY_URL=http://ts.ssl.com/legacy"]

/-- The configuration-blob choice made by `writeConfiguration`:
the production blob exactly for the string `PROD`, the sandbox blob for
every other value. -/
def selectConfigContent (environment : String) : String :=
  if environment = "PROD" then PROD_ENV_SETTINGS else SANDBOX_ENV_SETTINGS

/-- The fixed relative configuration file location under the tool root. -/
def configFilePath (toolPath : String) : String :=
  joinPath toolPath "conf/code_sign_tool.properties"

/-- A file store: path to content. -/
def FileStore := List (String × String)

/-- Model of `fs.writeFileSync` with flag `w`: overwrite any existing content. -/
def writeFileSyncModel (files : FileStore) (p content : String) : FileStore :=
  (p, content) :: (files.filter (fun kv => kv.1 ≠ p))

/-- Look a path up in the file store. -/
def lookupFile (files : FileStore) (p : String) : Option String :=
  (files.find? (fun kv => kv.1 = p)).map (fun kv => kv.2)

/-- Model of `SigningToolManager.writeConfiguration`. -/
def writeConfiguration (toolPath environment : String) (files : FileStore) : FileStore :=
  writeFileSyncModel files (configFilePath toolPath) (selectConfigContent environment)

/-- The environment-name default applied in `initialize`:
`core.getInput(ENV_NAME) || 'PROD'` (the empty string is falsy). -/
def resolveEnvironmentName (raw : String) : String :=
  if raw = "" then "PROD" else raw

/-! ### Shell-prefix resolution (`resolveUserShell` in `util.ts`) -/

/-- Result of the `os.userInfo()` call: the call either throws (no passwd
entry for the current user) or returns the user record, whose `shell` field
may be `null`.  (`userInfo()` never returns a falsy value, so the source's
`if (userShellInfo)` guard is always taken on the success path.) -/
inductive UserInfoOutcome
  | threw
  | returned (shell : Option String)
deriving DecidableEq, Repr

/-- Model of `resolveUserShell`: platform is the `identifyPlatform()` result
(`WINDOWS` / `MACOS` / `UNIX`), `envShell` is `process.env.SHELL`
(`none` when unset).  The return value `none` models JavaScript `null`. -/
def resolveUserShell (platform signingMethod : String)
    (userInfoResult : UserInfoOutcome) (envShell : Option String) : Option String :=
  if platform = "WINDOWS" then some ""
  else if signingMethod = "v2" then some ""
  else
    match userInfoResult with
    | .returned shell => shell
    | .threw =>
      if platform = "MACOS" then some (envShell.getD "/bin/zsh")
      else some (envShell.getD "/bin/sh")

/-! ### Semantic versions (node-semver in strict mode, as used by `util.ts`)

The action calls `semver.valid`, `semver.parse`, `semver.compareBuild` and
`semver.satisfies` with default (strict) options.  The model follows
node-semver strict behavior: a version is `v?major.minor.patch` with an
optional `-prerelease` part (dot-separated identifiers; numeric
identifiers without leading zeros, other identifiers of alphanumerics and
hyphens containing a non-digit) and an optional `+build` part
(dot-separated identifiers of alphanumerics and hyphens), after trimming
surrounding whitespace, at most 256 characters long, with numeric
components below 2^53.  A range is a `||`-separated union of comparator
sets built from plain comparators, X-ranges, stars, tildes, carets and
hyphen ranges, tested with the standard prerelease-exclusion rule.  The
regex-replacement passes of range parsing are rendered on the
whitespace-collapsed token list; on malformed fragments where the regex
and token renditions could differ, both sides leave an invalid comparator
behind and `satisfies` is false either way. -/

/-- Numeric value of a digit string. -/
def digitsVal (cs : List Char) : Nat :=
  cs.foldl (fun acc c => 10 * acc + (c.toNat - 48)) 0

/-- A strict natural-number component: digits only, no leading zeros. -/
def parseNatStrict (s : String) : Option Nat :=
  let cs := s.toList
  if cs ≠ [] ∧ cs.all Char.isDigit ∧ (cs.length = 1 ∨ cs.head? ≠ some '0') then
    some (digitsVal cs)
  else none

/-- Decimal digits of a natural number (fuel-driven). -/
def natDigitsAux : Nat → Nat → List Char → List Char
  | 0, _, acc => acc
  | fuel + 1, n, acc =>
    let d := Char.ofNat (48 + n % 10)
    if n < 10 then d :: acc else natDigitsAux fuel (n / 10) (d :: acc)

/-- Decimal rendering of a natural number. -/
def natToString (n : Nat) : String :=
  (natDigitsAux (n + 1) n []).asString

/-- ASCII whitespace, as matched by the whitespace class of the range
regexes on the ASCII inputs in scope. -/
def isJsWhitespace (c : Char) : Bool :=
  c = ' ' ∨ c = '\t' ∨ c = '\n' ∨ c = '\r' ∨ c = '\x0b' ∨ c = '\x0c'

/-- Strip surrounding whitespace (String.prototype.trim on ASCII input). -/
def jsTrim (s : List Char) : List Char :=
  ((s.dropWhile isJsWhitespace).reverse.dropWhile isJsWhitespace).reverse

/-- Split a character list at every separator character selected by a
predicate. -/
def splitOnPred (p : Char → Bool) : List Char → List (List Char)
  | [] => [[]]
  | c :: cs =>
    let rest := splitOnPred p cs
    if p c then [] :: rest
    else
      match rest with
      | [] => [[c]]
      | r :: rs => (c :: r) :: rs

/-- Reduce all whitespace: trim and collapse every whitespace run to one
space (the first step of the `Range` constructor). -/
def jsCollapseWhitespace (s : List Char) : List Char :=
  (joinSep " " (((splitOnPred isJsWhitespace s).filter
    (fun w => w ≠ [])).map List.asString)).toList

/-- Split on the literal two-character separator `||`
(String.prototype.split). -/
def splitOnBars : List Char → List (List Char)
  | [] => [[]]
  | '|' :: '|' :: rest => [] :: splitOnBars rest
  | c :: cs =>
    match splitOnBars cs with
    | [] => [[c]]
    | r :: rs => (c :: r) :: rs

/-- Split at the first occurrence of a character; `none` when absent. -/
def splitAtFirstChar (sep : Char) : List Char → List Char × Option (List Char)
  | [] => ([], none)
  | c :: cs =>
    if c = sep then ([], some cs)
    else
      let r := splitAtFirstChar sep cs
      (c :: r.1, r.2)

/-- A legal build-metadata identifier: nonempty, alphanumerics and hyphens. -/
def isBuildIdent (s : String) : Bool :=
  s ≠ "" ∧ s.toList.all (fun c => c.isAlphanum ∨ c = '-')

/-- A legal strict prerelease identifier: a strict numeric identifier, or
an identifier of alphanumerics and hyphens containing a non-digit. -/
def isPrereleaseIdent (s : String) : Bool :=
  (parseNatStrict s).isSome ∨
    (s ≠ "" ∧ s.toList.all (fun c => c.isAlphanum ∨ c = '-') ∧
      s.toList.any (fun c => !c.isDigit))

/-- A parsed semantic version. -/
structure SemVer where
  major : Nat
  minor : Nat
  patch : Nat
  prerelease : List String
  build : List String
deriving DecidableEq, Repr

/-- Parse `major.minor.patch`. -/
def parseMainVersion (s : String) : Option (Nat × Nat × Nat) :=
  match (splitOnChar '.' s.toList).map List.asString with
  | [a, b, c] => do
    let x ← parseNatStrict a
    let y ← parseNatStrict b
    let z ← parseNatStrict c
    pure (x, y, z)
  | _ => none

/-- Model of `semver.parse` in strict mode: length bound, trim, optional
leading `v`, `major.minor.patch`, optional `-prerelease` (the first `-`
starts it), optional `+build` (the first `+` starts it), numeric
components below 2^53. -/
def parseSemVer (s : String) : Option SemVer :=
  if s.length > 256 then none
  else do
    let cs0 := jsTrim s.toList
    let cs := match cs0 with
      | 'v' :: rest => rest
      | _ => cs0
    let sb := splitAtFirstChar '+' cs
    let sp := splitAtFirstChar '-' sb.1
    let m ← parseMainVersion sp.1.asString
    let prerelease ← match sp.2 with
      | none => some []
      | some p =>
        let idents := (splitOnChar '.' p).map List.asString
        if idents.all isPrereleaseIdent then some idents else none
    let build ← match sb.2 with
      | none => some []
      | some bp =>
        let idents := (splitOnChar '.' bp).map List.asString
        if idents.all isBuildIdent then some idents else none
    if m.1 < 2 ^ 53 ∧ m.2.1 < 2 ^ 53 ∧ m.2.2 < 2 ^ 53 then
      some ⟨m.1, m.2.1, m.2.2, prerelease, build⟩
    else none

/-- The numeric-identifier test (digits only) on an identifier. -/
def isNumericIdent (s : String) : Bool :=
  s ≠ "" ∧ s.toList.all Char.isDigit

/-- JavaScript `<` on strings: lexicographic by code unit. -/
def cmpCharList : List Char → List Char → Ordering
  | [], [] => .eq
  | [], _ :: _ => .lt
  | _ :: _, [] => .gt
  | a :: as, b :: bs =>
    match compare a.toNat b.toNat with
    | .eq => cmpCharList as bs
    | o => o

/-- Model of the `compareIdentifiers` helper of `semver`: numeric
identifiers compare as numbers, a numeric identifier sorts below a
non-numeric one, otherwise plain string comparison. -/
def compareIdentifiers (a b : String) : Ordering :=
  let anum := isNumericIdent a
  let bnum := isNumericIdent b
  if anum ∧ bnum then compare (digitsVal a.toList) (digitsVal b.toList)
  else if a = b then .eq
  else if anum then .lt
  else if bnum then .gt
  else cmpCharList a.toList b.toList

/-- The shared identifier-list walk of `comparePre` and `compareBuild`:
a missing identifier sorts below a present one; the first pair of unequal
identifiers decides via `compareIdentifiers`. -/
def compareBuildIdentifiers : List String → List String → Ordering
  | [], [] => .eq
  | [], _ :: _ => .lt
  | _ :: _, [] => .gt
  | a :: as, b :: bs =>
    if a = b then compareBuildIdentifiers as bs else compareIdentifiers a b

/-- Main-version comparison (major, then minor, then patch). -/
def compareMainVersion (a b : SemVer) : Ordering :=
  match compare a.major b.major with
  | .eq =>
    match compare a.minor b.minor with
    | .eq => compare a.patch b.patch
    | o => o
  | o => o

/-- Model of `comparePre`: a version carrying a prerelease sorts below the
same version without one; two prerelease lists compare by the identifier
walk. -/
def comparePrerelease : List String → List String → Ordering
  | [], [] => .eq
  | [], _ :: _ => .gt
  | _ :: _, [] => .lt
  | a :: as, b :: bs => compareBuildIdentifiers (a :: as) (b :: bs)

/-- Model of `semver.compare`: main version, then prerelease; build
metadata is ignored. -/
def compareSemVer (a b : SemVer) : Ordering :=
  match compareMainVersion a b with
  | .eq => comparePrerelease a.prerelease b.prerelease
  | o => o

/-- Model of `semver.compareBuild` on parsed versions: `compare`, then the
build-identifier walk. -/
def compareBuildSemVer (a b : SemVer) : Ordering :=
  match compareSemVer a b with
  | .eq => compareBuildIdentifiers a.build b.build
  | o => o

/-- An X-range operand: each part numeric or `x`/`X`/`*`/missing (the
regex treats the last two identically), with a validated raw prerelease
part; build metadata is validated and dropped. -/
structure XRangePlain where
  major : Option Nat
  minor : Option Nat
  patch : Option Nat
  prerelease : Option String
deriving DecidableEq, Repr

/-- One X-range part: `x`, `X`, `*`, or a strict numeric identifier. -/
def parseXRangeIdent (s : String) : Option (Option Nat) :=
  if s = "x" ∨ s = "X" ∨ s = "*" then some none
  else (parseNatStrict s).map some

/-- Parse an X-range operand: a junk prefix of `v`, `=` and whitespace
characters (the character class of the source regex), then one to three
dotted parts, with prerelease and build only after three parts. -/
def parseXRangePlain (tok : String) : Option XRangePlain := do
  let cs := tok.toList.dropWhile (fun c => c = 'v' ∨ c = '=' ∨ isJsWhitespace c)
  let sb := splitAtFirstChar '+' cs
  let sp := splitAtFirstChar '-' sb.1
  let parts := (splitOnChar '.' sp.1).map List.asString
  let pre ← match sp.2 with
    | none => some (none : Option String)
    | some p =>
      let idents := (splitOnChar '.' p).map List.asString
      if idents.all isPrereleaseIdent then some (some p.asString) else none
  let buildOk := match sb.2 with
    | none => true
    | some bp => ((splitOnChar '.' bp).map List.asString).all isBuildIdent
  if !buildOk then none
  else
    match parts with
    | [a] =>
      if pre.isSome ∨ sb.2.isSome then none
      else do
        let x ← parseXRangeIdent a
        pure ⟨x, none, none, none⟩
    | [a, b] =>
      if pre.isSome ∨ sb.2.isSome then none
      else do
        let x ← parseXRangeIdent a
        let y ← parseXRangeIdent b
        pure ⟨x, y, none, none⟩
    | [a, b, c] => do
      let x ← parseXRangeIdent a
      let y ← parseXRangeIdent b
      let z ← parseXRangeIdent c
      pure ⟨x, y, z, pre⟩
    | _ => none

/-- Render `major.minor.patch` with a suffix. -/
def renderVer (mj mn pt : Nat) (suffix : String) : String :=
  natToString mj ++ "." ++ natToString mn ++ "." ++ natToString pt ++ suffix

/-- The tilde expansion (`replaceTilde`, includePrerelease off). -/
def tildeExpand (x : XRangePlain) : List String :=
  match x.major with
  | none => [""]
  | some mj =>
    match x.minor with
    | none => [">=" ++ renderVer mj 0 0 "", "<" ++ renderVer (mj + 1) 0 0 "-0"]
    | some mn =>
      match x.patch with
      | none => [">=" ++ renderVer mj mn 0 "", "<" ++ renderVer mj (mn + 1) 0 "-0"]
      | some pt =>
        match x.prerelease with
        | some pr =>
          [">=" ++ renderVer mj mn pt ("-" ++ pr), "<" ++ renderVer mj (mn + 1) 0 "-0"]
        | none =>
          [">=" ++ renderVer mj mn pt "", "<" ++ renderVer mj (mn + 1) 0 "-0"]

/-- The caret expansion (`replaceCaret`, includePrerelease off). -/
def caretExpand (x : XRangePlain) : List String :=
  match x.major with
  | none => [""]
  | some mj =>
    match x.minor with
    | none => [">=" ++ renderVer mj 0 0 "", "<" ++ renderVer (mj + 1) 0 0 "-0"]
    | some mn =>
      match x.patch with
      | none =>
        if mj = 0 then
          [">=" ++ renderVer 0 mn 0 "", "<" ++ renderVer 0 (mn + 1) 0 "-0"]
        else
          [">=" ++ renderVer mj mn 0 "", "<" ++ renderVer (mj + 1) 0 0 "-0"]
      | some pt =>
        let lowSuffix := match x.prerelease with
          | some pr => "-" ++ pr
          | none => ""
        let low := ">=" ++ renderVer mj mn pt lowSuffix
        if mj = 0 ∧ mn = 0 then [low, "<" ++ renderVer 0 0 (pt + 1) "-0"]
        else if mj = 0 then [low, "<" ++ renderVer 0 (mn + 1) 0 "-0"]
        else [low, "<" ++ renderVer (mj + 1) 0 0 "-0"]

/-- The X-range rewrite (`replaceXRange`, includePrerelease off): an
operand without any X part passes through unchanged. -/
def xrangeExpand (op tok : String) (x : XRangePlain) : List String :=
  match x.major with
  | none =>
    if op = ">" ∨ op = "<" then ["<0.0.0-0"] else ["*"]
  | some mj =>
    match x.minor with
    | none =>
      let op := if op = "=" then "" else op
      if op = ">" then [">=" ++ renderVer (mj + 1) 0 0 ""]
      else if op = "<=" then ["<" ++ renderVer (mj + 1) 0 0 "-0"]
      else if op = "<" then ["<" ++ renderVer mj 0 0 "-0"]
      else if op = ">=" then [">=" ++ renderVer mj 0 0 ""]
      else [">=" ++ renderVer mj 0 0 "", "<" ++ renderVer (mj + 1) 0 0 "-0"]
    | some mn =>
      match x.patch with
      | none =>
        let op := if op = "=" then "" else op
        if op = ">" then [">=" ++ renderVer mj (mn + 1) 0 ""]
        else if op = "<=" then ["<" ++ renderVer mj (mn + 1) 0 "-0"]
        else if op = "<" then ["<" ++ renderVer mj mn 0 "-0"]
        else if op = ">=" then [">=" ++ renderVer mj mn 0 ""]
        else [">=" ++ renderVer mj mn 0 "", "<" ++ renderVer mj (mn + 1) 0 "-0"]
      | some _ => [tok]

/-- The star strip (`replaceStars`) and the `>=0.0.0` strip
(`replaceGTE0`), on whole tokens. -/
def starAndGte0Strip (tok : String) : String :=
  if tok = "*" then "" else if tok = ">=0.0.0" then "" else tok

/-- Comparator operators. -/
inductive CompOp
  | ltOp
  | leOp
  | gtOp
  | geOp
  | eqOp
deriving DecidableEq, Repr

/-- A parsed comparator: the any-version comparator (from the empty
comparator or a star), or an operator with a version. -/
inductive SemComparator
  | anyVersion
  | vcmp (op : CompOp) (ver : SemVer)
deriving DecidableEq, Repr

/-- Split a leading comparator operator (the `GTLT` capture:
`<`, `<=`, `>`, `>=`, `=` or nothing). -/
def splitGtlt : List Char → String × List Char
  | '<' :: '=' :: rest => ("<=", rest)
  | '>' :: '=' :: rest => (">=", rest)
  | '<' :: rest => ("<", rest)
  | '>' :: rest => (">", rest)
  | '=' :: rest => ("=", rest)
  | cs => ("", cs)

/-- Parse one final comparator token (the `Comparator` constructor): the
empty token means any version; otherwise an optional operator followed by
a full version (`=` and no operator both mean equality). -/
def parseFinalComparator (tok : String) : Option SemComparator :=
  if tok = "" then some .anyVersion
  else
    let pr := splitGtlt tok.toList
    match parseSemVer pr.2.asString with
    | none => none
    | some v =>
      let o := match pr.1 with
        | "<" => CompOp.ltOp
        | "<=" => CompOp.leOp
        | ">" => CompOp.gtOp
        | ">=" => CompOp.geOp
        | _ => CompOp.eqOp
      some (.vcmp o v)

/-- The per-token `parseComparator` pipeline: caret, tilde and X-range
rewrites, then star and `>=0.0.0` stripping. -/
def parseComparatorToken (tok : String) : List String :=
  let pieces1 :=
    match tok.toList with
    | '^' :: rest =>
      match parseXRangePlain rest.asString with
      | some x => caretExpand x
      | none => [tok]
    | _ => [tok]
  let pieces2 := pieces1.flatMap (fun t =>
    match t.toList with
    | '~' :: '>' :: rest =>
      match parseXRangePlain rest.asString with
      | some x => tildeExpand x
      | none => [t]
    | '~' :: rest =>
      match parseXRangePlain rest.asString with
      | some x => tildeExpand x
      | none => [t]
    | _ => [t])
  let pieces3 := pieces2.flatMap (fun t =>
    if t = "" then [t]
    else
      let pr := splitGtlt t.toList
      match parseXRangePlain pr.2.asString with
      | some x => xrangeExpand pr.1 t x
      | none => [t])
  pieces3.map starAndGte0Strip

/-- The comparator-trim pass (`COMPARATORTRIM`): a lone operator token is
glued to a following X-range or version operand. -/
def mergeOpTokens : List String → List String
  | [] => []
  | [t] => [t]
  | t :: n :: rest =>
    if (t = "<" ∨ t = ">" ∨ t = "<=" ∨ t = ">=" ∨ t = "=") ∧
        (parseXRangePlain n).isSome then
      (t ++ n) :: mergeOpTokens rest
    else t :: mergeOpTokens (n :: rest)

/-- The tilde-trim pass (`TILDETRIM`): a lone `~` or `~>` token is glued,
as `~`, to its successor. -/
def mergeTildeTokens : List String → List String
  | [] => []
  | [t] => [t]
  | t :: n :: rest =>
    if t = "~" ∨ t = "~>" then ("~" ++ n) :: mergeTildeTokens rest
    else t :: mergeTildeTokens (n :: rest)

/-- The caret-trim pass (`CARETTRIM`): a lone `^` token is glued to its
successor. -/
def mergeCaretTokens : List String → List String
  | [] => []
  | [t] => [t]
  | t :: n :: rest =>
    if t = "^" then ("^" ++ n) :: mergeCaretTokens rest
    else t :: mergeCaretTokens (n :: rest)

/-- Split a subrange on the hyphen-range separator (a `-` between single
spaces; inside an operand a spaced hyphen cannot occur). -/
def splitOnHyphenSep : List Char → List (List Char)
  | ' ' :: '-' :: ' ' :: rest => [] :: splitOnHyphenSep rest
  | c :: cs =>
    match splitOnHyphenSep cs with
    | [] => [[c]]
    | r :: rs => (c :: r) :: rs
  | [] => [[]]

/-- The hyphen-range rewrite (`hyphenReplace`, includePrerelease off): a
subrange of the form `from - to` becomes its two bounding comparators;
the bound reuses the raw operand text when the operand is a full version
(for the upper bound, only when it carries no prerelease). -/
def hyphenStage (sr : List Char) : List Char :=
  match splitOnHyphenSep sr with
  | [l, r] =>
    match parseXRangePlain l.asString, parseXRangePlain r.asString with
    | some fa, some fb =>
      let fromStr :=
        match fa.major with
        | none => ""
        | some mj =>
          match fa.minor with
          | none => ">=" ++ renderVer mj 0 0 ""
          | some mn =>
            match fa.patch with
            | none => ">=" ++ renderVer mj mn 0 ""
            | some _ => ">=" ++ l.asString
      let toStr :=
        match fb.major with
        | none => ""
        | some mj =>
          match fb.minor with
          | none => "<" ++ renderVer (mj + 1) 0 0 "-0"
          | some mn =>
            match fb.patch with
            | none => "<" ++ renderVer mj (mn + 1) 0 "-0"
            | some pt =>
              match fb.prerelease with
              | some pr => "<=" ++ renderVer mj mn pt ("-" ++ pr)
              | none => "<=" ++ r.asString
      jsTrim (fromStr ++ " " ++ toStr).toList
    | _, _ => sr
  | _ => sr

/-- Comparator test (`cmp` with the comparator operator; build metadata
plays no role). -/
def compTest (v : SemVer) : SemComparator → Bool
  | .anyVersion => true
  | .vcmp op c =>
    match op with
    | .ltOp => compareSemVer v c = Ordering.lt
    | .leOp => !(compareSemVer v c = Ordering.gt)
    | .gtOp => compareSemVer v c = Ordering.gt
    | .geOp => !(compareSemVer v c = Ordering.lt)
    | .eqOp => compareSemVer v c = Ordering.eq

/-- One comparator set (`testSet`): every comparator must pass, and a
prerelease candidate additionally needs some comparator carrying a
prerelease at the same `major.minor.patch`. -/
def testSet (set : List SemComparator) (v : SemVer) : Bool :=
  set.all (compTest v) &&
    (v.prerelease.isEmpty ||
      set.any (fun c =>
        match c with
        | .anyVersion => false
        | .vcmp _ w =>
          !w.prerelease.isEmpty ∧ w.major = v.major ∧ w.minor = v.minor ∧
            w.patch = v.patch))

/-- Parse one `||`-alternative into its comparator set: hyphen-range
rewrite, the three trim passes, the per-token comparator pipeline, and
the final comparator parse (`none` models a thrown invalid-comparator
error). -/
def parseOneSubrange (sr : String) : Option (List SemComparator) :=
  let afterHyphen := hyphenStage sr.toList
  let toks0 := (splitOnChar ' ' afterHyphen).map List.asString
  let toks1 := mergeOpTokens toks0
  let toks2 := mergeTildeTokens toks1
  let toks3 := mergeCaretTokens toks2
  let pieces := toks3.flatMap parseComparatorToken
  pieces.mapM parseFinalComparator

/-- Model of `new Range(...)` in strict mode: collapse whitespace, split
on `||`, parse each alternative (`none` models a constructor throw). -/
def parseRangeSets (range : String) : Option (List (List SemComparator)) :=
  let collapsed := jsCollapseWhitespace range.toList
  ((splitOnBars collapsed).map (fun l => (jsTrim l).asString)).mapM parseOneSubrange

/-- Model of `semver.satisfies`: false when the range does not parse
(`satisfies` swallows the throw) or the candidate does not parse;
otherwise true when some comparator set accepts the candidate. -/
def satisfies (version range : String) : Bool :=
  match parseRangeSets range with
  | none => false
  | some sets =>
    match parseSemVer version with
    | none => false
    | some v => sets.any (fun set => testSet set v)

/-- Model of `checkVersionCompatibility` from `util.ts`: a range that is a
valid version carrying build metadata requires a build-aware exact match
(`semver.compareBuild` throws — modelled as `Except.error` — when the
candidate itself does not parse); every other range falls back to
`semver.satisfies`. -/
def checkVersionCompatibility (range version : String) : Except String Bool :=
  match parseSemVer range with
  | some semRange =>
    if semRange.build ≠ [] then
      match parseSemVer version with
      | some semVersion =>
        .ok (compareBuildSemVer semRange semVersion = Ordering.eq)
      | none => .error "Invalid Version"
    else .ok (satisfies version range)
  | none => .ok (satisfies version range)

/-! ### The JDK installer (`setup-jdk-base-installer.ts`) -/

/-- Model of `formatCacheVersionName`: encode a version for use as a tool-cache
directory name (stable: `+` becomes `-`; early access: `+` becomes `-ea.`,
or `-ea` is appended). -/
def formatCacheVersionName (isStableRelease : Bool) (versionString : String) : String :=
  let isEarlyAccess := !isStableRelease
  if isEarlyAccess then
    if jsIncludes versionString "+" then jsReplace versionString "+" "-ea."
    else versionString ++ "-ea"
  else jsReplace versionString "+" "-"

/-- The regex replacement of a trailing `-ea` by the empty string. -/
def stripEaSuffixList (s : List Char) : List Char :=
  if ['-', 'e', 'a'].isSuffixOf s then s.take (s.length - 3) else s

/-- String-level wrapper for `stripEaSuffixList`. -/
def stripEaSuffix (s : String) : String :=
  (stripEaSuffixList s.toList).asString

/-- Model of `normalizeVersionString`: decode a tool-cache directory name back to a
version (`-ea.` to `+`, a trailing `-ea` stripped, then the first `-` to
`+`). -/
def normalizeVersionString (versionStr : String) : String :=
  jsReplace (stripEaSuffix (jsReplace versionStr "-ea." "+")) "-" "+"

/-- A located JDK installation. -/
structure JdkSetupResult where
  version : String
  path : String
deriving DecidableEq, Repr

/-- A remote release resolvable by the concrete provider. -/
structure JdkReleaseInfo where
  version : String
  url : String
deriving DecidableEq, Repr

/-- One cached tool-cache entry after name normalization. -/
structure CachedJdkEntry where
  version : String
  path : String
  stable : Bool
deriving DecidableEq, Repr

/-- The installer fields set by the `JdkInstallationBase` constructor. -/
structure InstallerState where
  jdkVersion : String
  isStableRelease : Bool
  shouldCheckLatest : Bool
deriving DecidableEq, Repr

/-- The constructor hard-codes `parseVersion('11')`, stable, no
check-latest. -/
def defaultInstallerState : InstallerState :=
  ⟨"11", true, false⟩

/-- The host tool cache: the version-directory names reported by
`tc.findAllVersions` (in directory order) and, per name, the path
`findCachedTool` resolves (`""` models the `|| ''` of a missing path). -/
structure ToolCacheState where
  foundVersions : List String
  pathOf : String → String

/-- Model of `getCachedVersionsList`: normalize each cached name, attach its path,
read stability off the raw name, and keep entries matching the requested
stability. -/
def getCachedVersionsList (st : InstallerState) (cache : ToolCacheState) :
    List CachedJdkEntry :=
  (cache.foundVersions.map (fun versionStr =>
    { version := normalizeVersionString versionStr
      path := cache.pathOf versionStr
      stable := !(jsIncludes versionStr "-ea") : CachedJdkEntry })).filter
    (fun entry => entry.stable = st.isStableRelease)

/-- The compatibility filter of `filterAndSortVersions`
(`checkVersionCompatibility` can throw, which aborts the whole search). -/
def filterCompatibleEntries (range : String) :
    List CachedJdkEntry → Except String (List CachedJdkEntry)
  | [] => .ok []
  | e :: rest => do
    let compatible ← checkVersionCompatibility range e.version
    let tail ← filterCompatibleEntries range rest
    pure (if compatible then e :: tail else tail)

/-- The sort comparator `-semver.compareBuild(first.version, second.version)`
read as a not-below test: `first` may stay before `second` iff `first` is
not strictly smaller. -/
def entryLe (f s : CachedJdkEntry) : Bool :=
  match parseSemVer f.version, parseSemVer s.version with
  | some a, some b => !(compareBuildSemVer a b = Ordering.lt)
  | _, _ => true

/-- Stable insertion into a sorted list. -/
def insertDescending (le : CachedJdkEntry → CachedJdkEntry → Bool)
    (x : CachedJdkEntry) : List CachedJdkEntry → List CachedJdkEntry
  | [] => [x]
  | y :: ys => if le x y then x :: y :: ys else y :: insertDescending le x ys

/-- A stable sort, modelling `Array.prototype.sort` (which is required to
be stable). -/
def stableSortBy (le : CachedJdkEntry → CachedJdkEntry → Bool) :
    List CachedJdkEntry → List CachedJdkEntry
  | [] => []
  | x :: xs => insertDescending le x (stableSortBy le xs)

/-- The sort step: `semver.compareBuild` throws on an unparseable version,
modelled as a pre-check over the list. -/
def sortCachedEntries (l : List CachedJdkEntry) :
    Except String (List CachedJdkEntry) :=
  if l.all (fun e => (parseSemVer e.version).isSome) then
    .ok (stableSortBy entryLe l)
  else .error "Invalid Version"

/-- Model of `filterAndSortVersions`: keep compatible entries with a nonempty path,
sorted descending by build-aware comparison. -/
def filterAndSortVersions (st : InstallerState) (versions : List CachedJdkEntry) :
    Except String (List CachedJdkEntry) := do
  let compat ← filterCompatibleEntries st.jdkVersion versions
  sortCachedEntries (compat.filter (fun e => e.path ≠ ""))

/-- Model of `searchToolCache`: the best cached match, if any. -/
def searchToolCache (st : InstallerState) (cache : ToolCacheState) :
    Except String (Option JdkSetupResult) := do
  let matching ← filterAndSortVersions st (getCachedVersionsList st cache)
  match matching with
  | [] => pure none
  | best :: _ => pure (some ⟨best.version, best.path⟩)

/-- The macOS `Contents/Home` adjustment at the end of `performSetup`. -/
def macAdjustPath (platform : String) (fsExists : String → Bool)
    (inst : JdkSetupResult) : JdkSetupResult :=
  let macosJdkPath := joinPath inst.path "Contents/Home"
  if platform = "darwin" ∧ fsExists macosJdkPath then
    { inst with path := macosJdkPath }
  else inst

/-- Model of `performSetup`: prefer a cached installation when check-latest is off;
otherwise resolve the latest remote release (`locateRelease`), reuse the
cache when the versions agree, else download (`fetchArchive`).  The two
boolean results record whether a remote lookup and a download happened. -/
def performSetup (st : InstallerState) (cache : ToolCacheState)
    (locateRelease : String → Except String JdkReleaseInfo)
    (fetchArchive : JdkReleaseInfo → Except String JdkSetupResult)
    (platform : String) (fsExists : String → Bool) :
    Except String (JdkSetupResult × Bool × Bool) := do
  let jdkInstallation ← searchToolCache st cache
  match jdkInstallation, st.shouldCheckLatest with
  | some inst, false =>
    pure (macAdjustPath platform fsExists inst, false, false)
  | instOpt, _ => do
    let releasePackage ← locateRelease st.jdkVersion
    match instOpt with
    | some inst =>
      if inst.version = releasePackage.version then
        pure (macAdjustPath platform fsExists inst, true, false)
      else do
        let fetched ← fetchArchive releasePackage
        pure (macAdjustPath platform fsExists fetched, true, true)
    | none => do
      let fetched ← fetchArchive releasePackage
      pure (macAdjustPath platform fsExists fetched, true, true)

/-! ## Claims -/

/-! ### C2: output classification by literal markers -/

/-- The marker scan, spelled out per marker. -/
lemma detectExecutionErrors_iff (r : ExecResult) :
    detectExecutionErrors r = true ↔
      ∃ m ∈ errorIndicators,
        (jsIncludes r.stdout m = true ∨ jsIncludes r.stderr m = true) := by
  simp only [detectExecutionErrors, Bool.or_eq_true, List.any_eq_true]
  constructor
  · rintro (⟨m, hm, h⟩ | ⟨m, hm, h⟩)
    · exact ⟨m, hm, Or.inl h⟩
    · exact ⟨m, hm, Or.inr h⟩
  · rintro ⟨m, hm, h | h⟩
    · exact Or.inl ⟨m, hm, h⟩
    · exact Or.inr ⟨m, hm, h⟩

/-- C2: the execution controller classifies a run purely by text matching:
a run fails exactly when stdout or stderr contains one of the five literal
markers; the classifier never consults the exit status; any output
containing `Missing required option` fails; with no marker present the
raw result is published as the `CodeSigner` output. -/
theorem execution_error_classification :
    (∀ r : ExecResult, detectExecutionErrors r = true ↔
      (jsIncludes r.stdout "Error" = true ∨ jsIncludes r.stderr "Error" = true ∨
       jsIncludes r.stdout "Exception" = true ∨ jsIncludes r.stderr "Exception" = true ∨
       jsIncludes r.stdout "Missing required option" = true ∨
       jsIncludes r.stderr "Missing required option" = true ∨
       jsIncludes r.stdout "Unmatched arguments from" = true ∨
       jsIncludes r.stderr "Unmatched arguments from" = true ∨
       jsIncludes r.stdout "Unmatched argument" = true ∨
       jsIncludes r.stderr "Unmatched argument" = true))
    ∧ (∀ out err c1 c2,
        detectExecutionErrors ⟨out, err, c1⟩ = detectExecutionErrors ⟨out, err, c2⟩)
    ∧ (∀ r : ExecResult, jsIncludes r.stdout "Missing required option" = true →
        classifyMainExecution r = .failed "Something Went Wrong. Please try again.")
    ∧ (∀ r : ExecResult, detectExecutionErrors r = false →
        classifyMainExecution r = .published "CodeSigner" r) := by
  refine ⟨fun r => ?_, fun _ _ _ _ => rfl, fun r h => ?_, fun r h => ?_⟩
  · rw [detectExecutionErrors_iff]
    simp only [errorIndicators, List.mem_cons, List.not_mem_nil, or_false]
    constructor
    · rintro ⟨m, hm, h⟩
      rcases hm with rfl | rfl | rfl | rfl | rfl <;> tauto
    · rintro (h | h | h | h | h | h | h | h | h | h)
      · exact ⟨"Error", by tauto, by tauto⟩
      · exact ⟨"Error", by tauto, by tauto⟩
      · exact ⟨"Exception", by tauto, by tauto⟩
      · exact ⟨"Exception", by tauto, by tauto⟩
      · exact ⟨"Missing required option", by tauto, by tauto⟩
      · exact ⟨"Missing required option", by tauto, by tauto⟩
      · exact ⟨"Unmatched arguments from", by tauto, by tauto⟩
      · exact ⟨"Unmatched arguments from", by tauto, by tauto⟩
      · exact ⟨"Unmatched argument", by tauto, by tauto⟩
      · exact ⟨"Unmatched argument", by tauto, by tauto⟩
  · have hd : detectExecutionErrors r = true := by
      rw [detectExecutionErrors_iff]
      exact ⟨"Missing required option", by simp [errorIndicators], Or.inl h⟩
    simp [classifyMainExecution, hd]
  · simp [classifyMainExecution, h]

/-- Witness for C2 at a concrete output. -/
theorem execution_error_classification_witness :
    jsIncludes "out: Missing required option xyz" "Missing required option" = true ∧
    classifyMainExecution ⟨"out: Missing required option xyz", "", 0⟩
      = .failed "Something Went Wrong. Please try again." :=
  ⟨by decide,
   execution_error_classification.2.2.1 ⟨"out: Missing required option xyz", "", 0⟩
     (by decide)⟩

/-! ### C8: shell-prefix resolution (corrected) -/

/-- Counterexample to C8 as stated: on a Unix platform with the default
signing method, when `os.userInfo()` succeeds but reports a `null` shell,
the source returns that `null` directly; it does not fall back to the
`SHELL` environment variable. -/
theorem resolveUserShell_cex :
    resolveUserShell "UNIX" "v1" (.returned none) (some "/bin/bash") = none ∧
    (none : Option String) ≠ some "/bin/bash" :=
  ⟨by decide, by decide⟩

/-- C8 (amended): empty prefix on the Windows family or under the v2
strategy; otherwise, when the user-info lookup succeeds the reported login
shell is returned as-is (possibly null, with no fallback); only when the
lookup itself throws does the resolver fall back to `SHELL` when set, else
`/bin/zsh` on macOS and `/bin/sh` on other Unix platforms. -/
theorem resolveUserShell_amended :
    (∀ m u e, resolveUserShell "WINDOWS" m u e = some "")
    ∧ (∀ p u e, resolveUserShell p "v2" u e = some "")
    ∧ (∀ p m sh e, p ≠ "WINDOWS" → m ≠ "v2" →
        resolveUserShell p m (.returned sh) e = sh)
    ∧ (∀ m e, m ≠ "v2" →
        resolveUserShell "MACOS" m .threw e = some (e.getD "/bin/zsh"))
    ∧ (∀ p m e, p ≠ "WINDOWS" → p ≠ "MACOS" → m ≠ "v2" →
        resolveUserShell p m .threw e = some (e.getD "/bin/sh")) := by
  refine ⟨fun m u e => by simp [resolveUserShell],
          fun p u e => ?_,
          fun p m sh e hp hm => by simp [resolveUserShell, hp, hm],
          fun m e hm => by simp [resolveUserShell, hm],
          fun p m e hp hmac hm => by simp [resolveUserShell, hp, hmac, hm]⟩
  by_cases hp : p = "WINDOWS" <;> simp [resolveUserShell, hp]

/-- Witness for C8 (amended) at concrete inputs. -/
theorem resolveUserShell_amended_witness :
    ("UNIX" : String) ≠ "WINDOWS" ∧ ("v1" : String) ≠ "v2" ∧
    resolveUserShell "UNIX" "v1" .threw (some "/bin/bash") = some "/bin/bash" :=
  ⟨by decide, by decide,
   resolveUserShell_amended.2.2.2.2 "UNIX" "v1" (some "/bin/bash")
     (by decide) (by decide) (by decide)⟩

/-! ### C9: environment-configuration selection -/

/-- C9: the production blob is selected exactly for the string `PROD`;
`TEST` and every other value silently select the sandbox blob; the empty
environment-name input defaults to `PROD`; the write overwrites whatever
the properties file contained. -/
theorem writeConfiguration_env_selection :
    selectConfigContent "PROD" = PROD_ENV_SETTINGS
    ∧ selectConfigContent "TEST" = SANDBOX_ENV_SETTINGS
    ∧ (∀ environment, environment ≠ "PROD" →
        selectConfigContent environment = SANDBOX_ENV_SETTINGS)
    ∧ resolveEnvironmentName "" = "PROD"
    ∧ (∀ toolPath environment files,
        lookupFile (writeConfiguration toolPath environment files) (configFilePath toolPath)
          = some (selectConfigContent environment)) := by
  refine ⟨rfl, rfl, fun e he => by simp [selectConfigContent, he], rfl,
          fun t e f => ?_⟩
  simp [writeConfiguration, writeFileSyncModel, lookupFile, List.find?]

/-- Witness for C9 at a concrete non-`PROD` environment name. -/
theorem writeConfiguration_env_selection_witness :
    ("STAGING" : String) ≠ "PROD" ∧
    selectConfigContent "STAGING" = SANDBOX_ENV_SETTINGS :=
  ⟨by decide, writeConfiguration_env_selection.2.2.1 "STAGING" (by decide)⟩

/-! ### C1 and C7: allow-list gating and empty-value skipping -/

/-- An empty resolved value short-circuits `appendParameter`. -/
lemma appendParameter_of_empty (A : ActionEnv) (inputKey command action : String)
    (fs : FileSystem) (h : fetchInputValue A inputKey = "") :
    appendParameter A inputKey command action fs = .ok (command, fs) := by
  simp [appendParameter, h]

/-- A key outside the operation's allow-list short-circuits
`appendParameter`. -/
lemma appendParameter_of_unsupported (A : ActionEnv) (inputKey command action : String)
    (fs : FileSystem) (h : isKeySupported action inputKey = false) :
    appendParameter A inputKey command action fs = .ok (command, fs) := by
  by_cases he : fetchInputValue A inputKey = "" <;> simp [appendParameter, he, h]

/-- Folding `appendParameter` over keys that are all skipped leaves the
accumulated command and the filesystem unchanged. -/
lemma foldlM_appendParameter_skip (A : ActionEnv) (action : String) :
    ∀ (keys : List String),
      (∀ k ∈ keys, fetchInputValue A k = "" ∨ isKeySupported action k = false) →
      ∀ (command : String) (fs : FileSystem),
        keys.foldlM (fun acc key => appendParameter A key acc.1 action acc.2) (command, fs)
          = Except.ok (command, fs)
  | [], _, command, fs => rfl
  | k :: rest, h, command, fs => by
    have hstep : appendParameter A k command action fs = .ok (command, fs) := by
      rcases h k (List.mem_cons_self k rest) with hk | hk
      · exact appendParameter_of_empty A k command action fs hk
      · exact appendParameter_of_unsupported A k command action fs hk
    have htail := foldlM_appendParameter_skip A action rest
      (fun x hx => h x (List.mem_cons_of_mem k hx)) command fs
    simp only [List.foldlM_cons, hstep]
    exact htail

/-- C1: for every operation and candidate key, `appendParameter` changes the
command only for keys inside the operation's allow-list; a key outside the
allow-list — even with a non-empty value — is skipped silently, raising no
error and leaving the command (and the filesystem) exactly as it was. -/
theorem appendParameter_allow_list_gate :
    ∀ (A : ActionEnv) (inputKey command action : String) (fs : FileSystem),
      isKeySupported action inputKey = false →
      appendParameter A inputKey command action fs = Except.ok (command, fs) :=
  fun A k c a fs h => appendParameter_of_unsupported A k c a fs h

/-- Concrete environment for the C1 witness: a non-empty `file_path` input,
offered to the `scan_code` operation, whose allow-list omits `file_path`. -/
def gateWitnessEnv : ActionEnv :=
  ⟨fun k => if k = "file_path" then "payload.exe" else "", [], fun _ => []⟩

/-- Witness for C1 at a concrete input. -/
theorem appendParameter_allow_list_gate_witness :
    fetchInputValue gateWitnessEnv "file_path" = "payload.exe" ∧
    isKeySupported "scan_code" "file_path" = false ∧
    appendParameter gateWitnessEnv "file_path" "scan_code" "scan_code" ⟨[]⟩
      = Except.ok ("scan_code", ⟨[]⟩) :=
  ⟨by decide, by decide,
   appendParameter_allow_list_gate gateWitnessEnv "file_path" "scan_code" "scan_code" ⟨[]⟩
     (by decide)⟩

/-- C7: an input key whose resolved value is empty emits no flag, whatever
the allow-list says; an operation all of whose candidate keys are
empty-valued or disallowed yields a command that is exactly the base
operation token. -/
theorem empty_value_no_flag :
    (∀ (A : ActionEnv) (inputKey command action : String) (fs : FileSystem),
      fetchInputValue A inputKey = "" →
      appendParameter A inputKey command action fs = Except.ok (command, fs))
    ∧ (∀ (A : ActionEnv) (action : String) (fs : FileSystem),
      (∀ k ∈ candidateParameterKeys,
        fetchInputValue A k = "" ∨ isKeySupported action k = false) →
      assembleCommandString A action fs = Except.ok (A.getInput "command", fs)) :=
  ⟨fun A k c a fs h => appendParameter_of_empty A k c a fs h,
   fun A action fs h =>
     foldlM_appendParameter_skip A action candidateParameterKeys h
       (A.getInput "command") fs⟩

/-- Concrete environment for the C7 witness: only the operation input is
set; every candidate parameter key resolves to the empty string. -/
def emptyInputsEnv : ActionEnv :=
  ⟨fun k => if k = "command" then "sign" else "", [], fun _ => []⟩

/-- Witness for C7 at a concrete input. -/
theorem empty_value_no_flag_witness :
    fetchInputValue emptyInputsEnv "username" = "" ∧
    assembleCommandString emptyInputsEnv "sign" ⟨[]⟩ = Except.ok ("sign", ⟨[]⟩) :=
  ⟨by decide, empty_value_no_flag.2 emptyInputsEnv "sign" ⟨[]⟩ (by decide)⟩

/-! ### C4: the `output_path` filesystem side effect (corrected)

The source calls `fs.mkdirSync(inputValue)` without `recursive: true`: the
missing directory is created only when its parent already exists; missing
intermediate path segments are NOT created — the call throws instead. -/

/-- Concrete environment for the C4 counterexample: `output_path` names the
nested directory `a/b` while neither `a` nor `a/b` exists. -/
def mkdirCexEnv : ActionEnv :=
  ⟨fun k => if k = "output_path" then "a/b" else "", [], fun _ => []⟩

/-- Counterexample to C4 as stated: for a normalized `output_path` naming a
non-existent directory with a missing intermediate segment, the builder
does not create the directory and does not emit the flag — it propagates a
filesystem error. -/
theorem output_path_mkdir_cex :
    existsSyncModel ⟨[]⟩ (normalizePath "a/b") = false ∧
    appendParameter mkdirCexEnv "output_path" "sign" "sign" ⟨[]⟩
      = Except.error "ENOENT" ∧
    Except.error "ENOENT"
      ≠ Except.ok ("sign -output_dir_path=\"a/b\"", FileSystem.mk [["a", "b"]]) :=
  ⟨by decide, by rfl, fun h => by cases h⟩

/-- C4 (amended): when the normalized `output_path` value names a
non-existent directory whose parent does exist (or which is a single
segment), the builder creates exactly that directory and still appends the
`-output_dir_path` flag carrying the normalized path; and the `output_path`
branch is the only parameter-building step with a filesystem side effect —
every other key leaves the filesystem untouched and never errors. -/
theorem output_path_mkdir_amended :
    (∀ (A : ActionEnv) (command action : String) (fs : FileSystem),
      fetchInputValue A "output_path" ≠ "" →
      isKeySupported action "output_path" = true →
      existsSyncModel fs (normalizePath (fetchInputValue A "output_path")) = false →
      ((pathSegments (normalizePath (fetchInputValue A "output_path"))).dropLast = [] ∨
        fs.dirs.contains
          ((pathSegments (normalizePath (fetchInputValue A "output_path"))).dropLast) = true) →
      appendParameter A "output_path" command action fs =
        Except.ok
          (command ++ " -output_dir_path=\"" ++
             normalizePath (fetchInputValue A "output_path") ++ "\"",
           ⟨pathSegments (normalizePath (fetchInputValue A "output_path")) :: fs.dirs⟩))
    ∧ (∀ (A : ActionEnv) (inputKey command action : String) (fs : FileSystem),
      inputKey ≠ "output_path" →
      ∃ c, appendParameter A inputKey command action fs = Except.ok (c, fs)) := by
  constructor
  · intro A command action fs hne hsup hex hpar
    simp [appendParameter, hne, hsup, hex, mkdirSyncModel]
    rcases hpar with hp | hp
    · simp [hp]
    · have hp2 : (pathSegments (normalizePath (fetchInputValue A "output_path"))).dropLast
          ∈ fs.dirs := by simpa using hp
      simp [hp2]
  · intro A inputKey command action fs hk
    by_cases he : fetchInputValue A inputKey = ""
    · exact ⟨command, appendParameter_of_empty A inputKey command action fs he⟩
    by_cases hs : isKeySupported action inputKey
    · unfold appendParameter
      rw [if_neg he]
      simp only [hs, Bool.not_true, Bool.false_eq_true, if_false]
      split_ifs <;> exact ⟨_, rfl⟩
    · exact ⟨command,
        appendParameter_of_unsupported A inputKey command action fs (by simpa using hs)⟩

/-- Concrete environment for the C4 witness: `output_path` is the single
missing segment `out`. -/
def mkdirWitnessEnv : ActionEnv :=
  ⟨fun k => if k = "output_path" then "out" else "", [], fun _ => []⟩

/-- Witness for C4 (amended) at a concrete input. -/
theorem output_path_mkdir_witness :
    fetchInputValue mkdirWitnessEnv "output_path" ≠ "" ∧
    isKeySupported "sign" "output_path" = true ∧
    existsSyncModel ⟨[]⟩ (normalizePath "out") = false ∧
    appendParameter mkdirWitnessEnv "output_path" "sign" "sign" ⟨[]⟩
      = Except.ok ("sign -output_dir_path=\"out\"", ⟨[["out"]]⟩) :=
  ⟨by decide, by decide, by decide,
   output_path_mkdir_amended.1 mkdirWitnessEnv "sign" "sign" ⟨[]⟩
     (by decide) (by decide) (by decide) (Or.inl (by decide))⟩

/-! ### C3: the batch-sign malware pre-scan short-circuits -/

/-- Bind on `Except` reduces on a success value. -/
lemma exceptBind_ok {α β : Type} (x : α) (f : α → Except String β) :
    (Except.ok x >>= f) = f x := rfl

/-- The flag fragment contributed by one credential key (for these keys the
flag name equals the input key). -/
def credFragment (A : ActionEnv) (key : String) : String :=
  if fetchInputValue A key = "" then ""
  else " -" ++ key ++ "=\"" ++ fetchInputValue A key ++ "\""

/-- The scan sub-command built by `buildScanCommand`: the `scan_code` token
followed by at most the username, password, credential-id and program-name
fragments. -/
def scanParamsFor (A : ActionEnv) : String :=
  "scan_code" ++ credFragment A "username" ++ credFragment A "password"
    ++ credFragment A "credential_id" ++ credFragment A "program_name"

/-- The complete scan command for one directory entry. -/
def scanCommandFor (A : ActionEnv) (baseCommand entry : String) : String :=
  baseCommand ++ " " ++ (scanParamsFor A ++ " -input_file_path=\""
    ++ joinPath (normalizePath (fetchInputValue A "dir_path")) entry ++ "\"")

/-- Applying `appendParameter` to one of the four credential keys appends
exactly that key's fragment. -/
lemma appendParameter_cred (A : ActionEnv) (key cmd action : String) (fs : FileSystem)
    (hsup : isKeySupported action key = true)
    (hkey : key = "username" ∨ key = "password" ∨ key = "credential_id" ∨
      key = "program_name") :
    appendParameter A key cmd action fs = .ok (cmd ++ credFragment A key, fs) := by
  rcases hkey with rfl | rfl | rfl | rfl <;>
    · simp_all [appendParameter, credFragment]
      split_ifs with h <;> simp [h, String.append_assoc]

/-- Under the `batch_sign` operation, `buildScanCommand` produces the
`scan_code` token plus exactly the four credential fragments. -/
lemma buildScanCommand_batch (A : ActionEnv) (fs : FileSystem) :
    buildScanCommand A "batch_sign" fs = .ok (scanParamsFor A, fs) := by
  have h1 := appendParameter_cred A "username" "scan_code" "batch_sign" fs
    (by decide) (by tauto)
  have h2 := appendParameter_cred A "password"
    ("scan_code" ++ credFragment A "username") "batch_sign" fs (by decide) (by tauto)
  have h3 := appendParameter_cred A "credential_id"
    ("scan_code" ++ credFragment A "username" ++ credFragment A "password")
    "batch_sign" fs (by decide) (by tauto)
  have h4 := appendParameter_cred A "program_name"
    ("scan_code" ++ credFragment A "username" ++ credFragment A "password"
      ++ credFragment A "credential_id") "batch_sign" fs (by decide) (by tauto)
  simp only [buildScanCommand, scanParamKeys, List.foldlM_cons, List.foldlM_nil,
    h1, exceptBind_ok, h2, h3, h4, scanParamsFor]
  rfl

/-- The scan loop consumes clean files one at a time, in order. -/
lemma scanLoop_clean (runExec : String → ExecResult) (base scanC dir : String) :
    ∀ (entries : List String),
      (∀ f ∈ entries,
        hasExecutionError (runExec (base ++ " " ++ (scanC ++ " -input_file_path=\""
          ++ joinPath dir f ++ "\""))) = false) →
      scanLoop runExec base scanC dir entries
        = (true, entries.map (fun f => base ++ " " ++ (scanC ++ " -input_file_path=\""
            ++ joinPath dir f ++ "\"")))
  | [], _ => rfl
  | f :: rest, h => by
    have hf := h f (List.mem_cons_self f rest)
    have htail := scanLoop_clean runExec base scanC dir rest
      (fun x hx => h x (List.mem_cons_of_mem f hx))
    simp [scanLoop, hf, htail]

/-- The scan loop stops at the first file whose scan output carries an
error marker: the files after it are never scanned. -/
lemma scanLoop_short_circuit (runExec : String → ExecResult) (base scanC dir : String) :
    ∀ (pre : List String) (bad : String) (post : List String),
      (∀ f ∈ pre,
        hasExecutionError (runExec (base ++ " " ++ (scanC ++ " -input_file_path=\""
          ++ joinPath dir f ++ "\""))) = false) →
      hasExecutionError (runExec (base ++ " " ++ (scanC ++ " -input_file_path=\""
        ++ joinPath dir bad ++ "\""))) = true →
      scanLoop runExec base scanC dir (pre ++ bad :: post)
        = (false, (pre ++ [bad]).map (fun f => base ++ " " ++ (scanC
            ++ " -input_file_path=\"" ++ joinPath dir f ++ "\"")))
  | [], bad, post, _, hbad => by simp [scanLoop, hbad]
  | f :: pre, bad, post, h, hbad => by
    have hf := h f (List.mem_cons_self f pre)
    have htail := scanLoop_short_circuit runExec base scanC dir pre bad post
      (fun x hx => h x (List.mem_cons_of_mem f hx)) hbad
    simp [scanLoop, hf, htail]

/-- C3: when the operation is `batch_sign` and malware scanning is enabled,
the directory's files are scanned strictly one at a time in directory
order, each scan command consisting of the base invocation, the
`scan_code` sub-command carrying only the username / password /
credential-id / program-name parameters, and that single file's path; at
the first scan whose output carries an error marker the run terminates as
failed, the main signing command is never executed, and no later file is
scanned: the executed-command trace is exactly the scan commands of the
clean files followed by the failing one. -/
theorem malware_scan_short_circuit :
    ∀ (A : ActionEnv) (fs : FileSystem) (runExec : String → ExecResult)
      (toolCommand fullCommand : String)
      (pre : List String) (bad : String) (post : List String),
      A.getInput "command" = "batch_sign" →
      jsToUpperCase (A.getInput "malware_block") = "TRUE" →
      A.readdir (normalizePath (fetchInputValue A "dir_path")) = pre ++ bad :: post →
      (∀ f ∈ pre, hasExecutionError (runExec (scanCommandFor A toolCommand f)) = false) →
      hasExecutionError (runExec (scanCommandFor A toolCommand bad)) = true →
      runSigningSlice A fs runExec toolCommand fullCommand
        = .ok (.failed "Something Went Wrong. Please try again.",
               (pre ++ [bad]).map (fun f => scanCommandFor A toolCommand f))
      ∧ buildScanCommand A "batch_sign" fs = .ok (scanParamsFor A, fs) := by
  intro A fs runExec toolCommand fullCommand pre bad post hcmd hscan hdir hpre hbad
  refine ⟨?_, buildScanCommand_batch A fs⟩
  have hloop := scanLoop_short_circuit runExec toolCommand (scanParamsFor A)
    (normalizePath (fetchInputValue A "dir_path")) pre bad post hpre hbad
  simp [runSigningSlice, hcmd, hscan, performMalwareScan,
    buildScanCommand_batch, exceptBind_ok, hdir, hloop, scanCommandFor]
  rfl

/-- Concrete environment for the C3 witness: a `batch_sign` run with
malware blocking on and a directory of three files. -/
def scanWitnessEnv : ActionEnv :=
  ⟨fun k =>
      if k = "command" then "batch_sign"
      else if k = "malware_block" then "true"
      else if k = "username" then "u"
      else if k = "password" then "p"
      else if k = "credential_id" then "c"
      else if k = "dir_path" then "d"
      else "",
   [], fun p => if p = "d" then ["f1", "f2", "f3"] else []⟩

/-- Concrete execution oracle for the C3 witness: the scan of `f2` prints
`Exception`, every other command is clean. -/
def scanWitnessExec : String → ExecResult :=
  fun cmd => if jsIncludes cmd "f2" then ⟨"Exception", "", 0⟩ else ⟨"", "", 0⟩

/-- Witness for C3: three files, the scan of file 2 reports `Exception`;
the run fails, file 3 is never scanned, the main command never runs. -/
theorem malware_scan_short_circuit_witness :
    hasExecutionError (scanWitnessExec (scanCommandFor scanWitnessEnv "TOOL" "f2")) = true ∧
    runSigningSlice scanWitnessEnv ⟨[]⟩ scanWitnessExec "TOOL" "FULL"
      = .ok (.failed "Something Went Wrong. Please try again.",
             (["f1"] ++ ["f2"]).map (fun f => scanCommandFor scanWitnessEnv "TOOL" f)) :=
  ⟨by decide,
   (malware_scan_short_circuit scanWitnessEnv ⟨[]⟩ scanWitnessExec "TOOL" "FULL"
      ["f1"] "f2" ["f3"] (by decide) (by decide) (by decide) (by decide) (by decide)).1⟩

/-! ### C6: version-compatibility semantics -/

/-- Swap symmetry of the character-list comparison. -/
lemma cmpCharList_swap : ∀ a b : List Char, cmpCharList b a = (cmpCharList a b).swap
  | [], [] => rfl
  | [], _ :: _ => rfl
  | _ :: _, [] => rfl
  | a :: as, b :: bs => by
    have h := Nat.compare_swap a.toNat b.toNat
    cases hc : compare a.toNat b.toNat with
    | eq =>
      have hba : compare b.toNat a.toNat = Ordering.eq := by rw [← h, hc]; rfl
      simpa [cmpCharList, hc, hba] using cmpCharList_swap as bs
    | lt =>
      have hba : compare b.toNat a.toNat = Ordering.gt := by rw [← h, hc]; rfl
      simp [cmpCharList, hc, hba, Ordering.swap]
    | gt =>
      have hba : compare b.toNat a.toNat = Ordering.lt := by rw [← h, hc]; rfl
      simp [cmpCharList, hc, hba, Ordering.swap]

/-- Swap symmetry of `compareIdentifiers`. -/
lemma compareIdentifiers_swap (a b : String) :
    compareIdentifiers b a = (compareIdentifiers a b).swap := by
  unfold compareIdentifiers
  by_cases ha : isNumericIdent a = true <;> by_cases hb : isNumericIdent b = true
  · simpa [ha, hb] using (Nat.compare_swap (digitsVal a.toList) (digitsVal b.toList)).symm
  · have hab : a ≠ b := fun h => hb (h ▸ ha)
    simp [ha, hb, hab, Ne.symm hab, Ordering.swap]
  · have hab : a ≠ b := fun h => ha (h ▸ hb)
    simp [ha, hb, hab, Ne.symm hab, Ordering.swap]
  · by_cases hab : a = b
    · subst hab; simp [ha, Ordering.swap]
    · simp only [ha, hb, hab, Ne.symm hab, if_false, Bool.false_and, and_false,
        Bool.and_self]
      simp [ha, hb, hab, Ne.symm hab]
      exact cmpCharList_swap a.toList b.toList

/-- Swap symmetry of the build-identifier walk. -/
lemma compareBuildIdentifiers_swap : ∀ a b : List String,
    compareBuildIdentifiers b a = (compareBuildIdentifiers a b).swap
  | [], [] => rfl
  | [], _ :: _ => rfl
  | _ :: _, [] => rfl
  | a :: as, b :: bs => by
    by_cases hab : a = b
    · subst hab
      simpa [compareBuildIdentifiers] using compareBuildIdentifiers_swap as bs
    · simp [compareBuildIdentifiers, hab, Ne.symm hab]
      exact compareIdentifiers_swap a b

/-- Swap symmetry of the main-version comparison. -/
lemma compareMainVersion_swap (a b : SemVer) :
    compareMainVersion b a = (compareMainVersion a b).swap := by
  cases c1 : compare a.major b.major with
  | lt =>
    have h1 : compare b.major a.major = Ordering.gt := by
      rw [← Nat.compare_swap, c1]; rfl
    simp [compareMainVersion, c1, h1, Ordering.swap]
  | gt =>
    have h1 : compare b.major a.major = Ordering.lt := by
      rw [← Nat.compare_swap, c1]; rfl
    simp [compareMainVersion, c1, h1, Ordering.swap]
  | eq =>
    have h1 : compare b.major a.major = Ordering.eq := by
      rw [← Nat.compare_swap, c1]; rfl
    cases c2 : compare a.minor b.minor with
    | lt =>
      have h2 : compare b.minor a.minor = Ordering.gt := by
        rw [← Nat.compare_swap, c2]; rfl
      simp [compareMainVersion, c1, h1, c2, h2, Ordering.swap]
    | gt =>
      have h2 : compare b.minor a.minor = Ordering.lt := by
        rw [← Nat.compare_swap, c2]; rfl
      simp [compareMainVersion, c1, h1, c2, h2, Ordering.swap]
    | eq =>
      have h2 : compare b.minor a.minor = Ordering.eq := by
        rw [← Nat.compare_swap, c2]; rfl
      simp only [compareMainVersion, c1, h1, c2, h2]
      exact (Nat.compare_swap a.patch b.patch).symm

/-- Swap symmetry of the prerelease comparison. -/
lemma comparePrerelease_swap : ∀ a b : List String,
    comparePrerelease b a = (comparePrerelease a b).swap
  | [], [] => rfl
  | [], _ :: _ => rfl
  | _ :: _, [] => rfl
  | a :: as, b :: bs => by
    simpa [comparePrerelease] using compareBuildIdentifiers_swap (a :: as) (b :: bs)

/-- Swap symmetry of the semantic-version comparison. -/
lemma compareSemVer_swap (a b : SemVer) :
    compareSemVer b a = (compareSemVer a b).swap := by
  have h := compareMainVersion_swap a b
  cases c : compareMainVersion a b with
  | eq =>
    rw [c] at h
    have h2 : compareMainVersion b a = Ordering.eq := h
    simp only [compareSemVer, c, h2]
    exact comparePrerelease_swap a.prerelease b.prerelease
  | lt =>
    rw [c] at h
    have h2 : compareMainVersion b a = Ordering.gt := h
    simp [compareSemVer, c, h2, Ordering.swap]
  | gt =>
    rw [c] at h
    have h2 : compareMainVersion b a = Ordering.lt := h
    simp [compareSemVer, c, h2, Ordering.swap]

/-- Swap symmetry of the build-aware comparison. -/
lemma compareBuildSemVer_swap (a b : SemVer) :
    compareBuildSemVer b a = (compareBuildSemVer a b).swap := by
  have h := compareSemVer_swap a b
  cases c : compareSemVer a b with
  | eq =>
    rw [c] at h
    have h2 : compareSemVer b a = Ordering.eq := h
    simp only [compareBuildSemVer, c, h2]
    exact compareBuildIdentifiers_swap a.build b.build
  | lt =>
    rw [c] at h
    have h2 : compareSemVer b a = Ordering.gt := h
    simp [compareBuildSemVer, c, h2, Ordering.swap]
  | gt =>
    rw [c] at h
    have h2 : compareSemVer b a = Ordering.lt := h
    simp [compareBuildSemVer, c, h2, Ordering.swap]

/-- The sort comparator is total. -/
lemma entryLe_total (a b : CachedJdkEntry) : entryLe a b = true ∨ entryLe b a = true := by
  unfold entryLe
  cases hpa : parseSemVer a.version with
  | none => simp
  | some x =>
    cases hpb : parseSemVer b.version with
    | none => simp
    | some y =>
      by_cases h : compareBuildSemVer x y = Ordering.lt
      · right
        have hs := compareBuildSemVer_swap x y
        rw [h] at hs
        have hs2 : compareBuildSemVer y x = Ordering.gt := hs
        simp [hs2]
      · left; simp [h]

/-- Membership through `insertDescending`. -/
lemma mem_insertDescending (le : CachedJdkEntry → CachedJdkEntry → Bool)
    (x a : CachedJdkEntry) :
    ∀ l, (a ∈ insertDescending le x l ↔ a = x ∨ a ∈ l)
  | [] => by simp [insertDescending]
  | y :: ys => by
    by_cases h : le x y = true
    · simp [insertDescending, h]
    · simp [insertDescending, h, mem_insertDescending le x a ys]
      tauto

/-- Membership through `stableSortBy`. -/
lemma mem_stableSortBy (le : CachedJdkEntry → CachedJdkEntry → Bool)
    (a : CachedJdkEntry) :
    ∀ l, (a ∈ stableSortBy le l ↔ a ∈ l)
  | [] => Iff.rfl
  | x :: xs => by
    simp [stableSortBy, mem_insertDescending, mem_stableSortBy le a xs]

/-- For a comparator total and transitive on the list, the head of the
sorted list dominates every element of the list. -/
lemma stableSortBy_head_le (le : CachedJdkEntry → CachedJdkEntry → Bool) :
    ∀ (l : List CachedJdkEntry),
      (∀ a ∈ l, ∀ b ∈ l, le a b = true ∨ le b a = true) →
      (∀ a ∈ l, ∀ b ∈ l, ∀ c ∈ l, le a b = true → le b c = true → le a c = true) →
      ∀ best rest, stableSortBy le l = best :: rest → ∀ e ∈ l, le best e = true
  | [], _, _, best, rest, hsort, e, he => by cases hsort
  | x :: xs, htot, htr, best, rest, hsort, e, he => by
    have hsub : ∀ p ∈ xs, p ∈ x :: xs := fun p hp => List.mem_cons_of_mem x hp
    cases hxs : stableSortBy le xs with
    | nil =>
      have hxsnil : xs = [] := by
        cases xs with
        | nil => rfl
        | cons y ys =>
          have hm : y ∈ stableSortBy le (y :: ys) :=
            (mem_stableSortBy le y (y :: ys)).2 (List.mem_cons_self y ys)
          rw [hxs] at hm
          cases hm
      subst hxsnil
      have hx : stableSortBy le [x] = [x] := rfl
      rw [hx] at hsort
      injection hsort with h1 h2
      subst h1
      rcases List.mem_cons.1 he with rfl | he2
      · rcases htot _ (List.mem_cons_self _ _) _ (List.mem_cons_self _ _) with h | h
          <;> exact h
      · cases he2
    | cons y ys =>
      have hy : y ∈ xs := (mem_stableSortBy le y xs).1 (by
        rw [hxs]; exact List.mem_cons_self y ys)
      have IH := stableSortBy_head_le le xs
        (fun a ha b hb => htot a (hsub a ha) b (hsub b hb))
        (fun a ha b hb c hc => htr a (hsub a ha) b (hsub b hb) c (hsub c hc))
        y ys hxs
      have hunf : stableSortBy le (x :: xs) = insertDescending le x (y :: ys) := by
        simp [stableSortBy, hxs]
      by_cases hxy : le x y = true
      · have hins : insertDescending le x (y :: ys) = x :: y :: ys := by
          simp [insertDescending, hxy]
        rw [hunf, hins] at hsort
        injection hsort with h1 h2
        subst h1
        rcases List.mem_cons.1 he with rfl | he2
        · rcases htot _ (List.mem_cons_self _ _) _ (List.mem_cons_self _ _) with h | h
            <;> exact h
        · exact htr _ (List.mem_cons_self _ _) y (hsub y hy) e (hsub e he2)
            hxy (IH e he2)
      · have hins : insertDescending le x (y :: ys)
            = y :: insertDescending le x ys := by
          simp [insertDescending, hxy]
        rw [hunf, hins] at hsort
        injection hsort with h1 h2
        subst h1
        rcases List.mem_cons.1 he with rfl | he2
        · rcases htot _ (List.mem_cons_self _ _) y (hsub y hy) with h | h
          · exact absurd h hxy
          · exact h
        · exact IH e he2

/-- Decompose a successful `filterAndSortVersions` run. -/
lemma filterAndSortVersions_ok (st : InstallerState) (vs l : List CachedJdkEntry)
    (h : filterAndSortVersions st vs = .ok l) :
    ∃ compat, filterCompatibleEntries st.jdkVersion vs = .ok compat ∧
      stableSortBy entryLe (compat.filter (fun e => e.path ≠ "")) = l := by
  unfold filterAndSortVersions at h
  cases hc : filterCompatibleEntries st.jdkVersion vs with
  | error e =>
    rw [hc] at h
    cases (show (Except.error e : Except String (List CachedJdkEntry)) = .ok l from h)
  | ok compat =>
    rw [hc] at h
    have h2 : sortCachedEntries (compat.filter (fun e => e.path ≠ "")) = .ok l := h
    unfold sortCachedEntries at h2
    by_cases hall : (compat.filter (fun e => e.path ≠ "")).all
        (fun e => (parseSemVer e.version).isSome) = true
    · rw [if_pos hall] at h2
      exact ⟨compat, rfl, Except.ok.inj h2⟩
    · rw [if_neg hall] at h2
      cases h2

/-- A tool cache holding the single stable entry `11.0.2-9`
(the stored spelling of `11.0.2+9`). -/
def cacheScenarioOne : ToolCacheState :=
  ⟨["11.0.2-9"], fun v => if v = "11.0.2-9" then "/opt/hostedtoolcache/one" else ""⟩

/-- A tool cache holding the stable entries `11.0.1-1` and `11.0.9-1`. -/
def cacheScenarioTwo : ToolCacheState :=
  ⟨["11.0.1-1", "11.0.9-1"],
   fun v =>
     if v = "11.0.1-1" then "/opt/hostedtoolcache/two-a"
     else if v = "11.0.9-1" then "/opt/hostedtoolcache/two-b"
     else ""⟩

/-- A remote resolver that records (by failing) that it was consulted. -/
def noRemoteLookup : String → Except String JdkReleaseInfo :=
  fun _ => .error "remote lookup attempted"

/-- A downloader that records (by failing) that it was consulted. -/
def noRemoteFetch : JdkReleaseInfo → Except String JdkSetupResult :=
  fun _ => .error "download attempted"

/-- C5: with check-latest off, a cache holding compatible entries is reused:
`performSetup` returns the entry that is highest under the descending
build-aware ordering among the stability-matching compatible entries, and
performs no remote lookup and no download.  Concretely, a cached
`11.0.2+9` (stored as `11.0.2-9`) satisfies a request for major version
`11` without any download, and of cached `11.0.1+1` and `11.0.9+1` the
installer selects `11.0.9+1`.  (The maximality conjunct assumes the
comparator is transitive on the cached entries, which holds whenever the
build identifiers are in canonical form.) -/
theorem performSetup_cache_selection :
    (∀ (cache : ToolCacheState)
       (locateRelease : String → Except String JdkReleaseInfo)
       (fetchArchive : JdkReleaseInfo → Except String JdkSetupResult)
       (platform : String) (fsExists : String → Bool)
       (best : CachedJdkEntry) (rest : List CachedJdkEntry),
      filterAndSortVersions defaultInstallerState
          (getCachedVersionsList defaultInstallerState cache) = .ok (best :: rest) →
      platform ≠ "darwin" →
      (∀ a ∈ best :: rest, ∀ b ∈ best :: rest, ∀ c ∈ best :: rest,
        entryLe a b = true → entryLe b c = true → entryLe a c = true) →
      performSetup defaultInstallerState cache locateRelease fetchArchive platform fsExists
          = .ok (⟨best.version, best.path⟩, false, false)
        ∧ (∀ e ∈ best :: rest, entryLe best e = true))
    ∧ performSetup defaultInstallerState cacheScenarioOne noRemoteLookup noRemoteFetch
        "linux" (fun _ => false)
        = .ok (⟨"11.0.2+9", "/opt/hostedtoolcache/one"⟩, false, false)
    ∧ performSetup defaultInstallerState cacheScenarioTwo noRemoteLookup noRemoteFetch
        "linux" (fun _ => false)
        = .ok (⟨"11.0.9+1", "/opt/hostedtoolcache/two-b"⟩, false, false) := by
  refine ⟨?_, rfl, rfl⟩
  intro cache locateRelease fetchArchive platform fsExists best rest hpipe hplat htrans
  obtain ⟨compat, hc, hsort⟩ := filterAndSortVersions_ok _ _ _ hpipe
  have hsearch : searchToolCache defaultInstallerState cache
      = .ok (some ⟨best.version, best.path⟩) := by
    unfold searchToolCache
    rw [hpipe]
    rfl
  have hmac : macAdjustPath platform fsExists ⟨best.version, best.path⟩
      = ⟨best.version, best.path⟩ := by
    simp [macAdjustPath, hplat]
  constructor
  · unfold performSetup
    rw [hsearch]
    show Except.ok (macAdjustPath platform fsExists ⟨best.version, best.path⟩, false, false)
      = _
    rw [hmac]
  · intro e he
    have hmem : ∀ p : CachedJdkEntry,
        p ∈ best :: rest ↔ p ∈ compat.filter (fun x => x.path ≠ "") := by
      intro p
      rw [← hsort, mem_stableSortBy]
    exact stableSortBy_head_le entryLe (compat.filter (fun x => x.path ≠ ""))
      (fun a _ b _ => entryLe_total a b)
      (fun a ha b hb c hcm => htrans a ((hmem a).2 ha) b ((hmem b).2 hb) c ((hmem c).2 hcm))
      best rest hsort e ((hmem e).1 he)

/-- Witness for C5 at the two-entry cache. -/
theorem performSetup_cache_selection_witness :
    filterAndSortVersions defaultInstallerState
        (getCachedVersionsList defaultInstallerState cacheScenarioTwo)
      = .ok [⟨"11.0.9+1", "/opt/hostedtoolcache/two-b", true⟩,
             ⟨"11.0.1+1", "/opt/hostedtoolcache/two-a", true⟩] ∧
    performSetup defaultInstallerState cacheScenarioTwo noRemoteLookup noRemoteFetch
        "linux" (fun _ => false)
      = .ok (⟨"11.0.9+1", "/opt/hostedtoolcache/two-b"⟩, false, false) :=
  ⟨rfl,
   (performSetup_cache_selection.1 cacheScenarioTwo noRemoteLookup noRemoteFetch
     "linux" (fun _ => false) ⟨"11.0.9+1", "/opt/hostedtoolcache/two-b", true⟩
     [⟨"11.0.1+1", "/opt/hostedtoolcache/two-a", true⟩] rfl (by decide) (by decide)).1⟩

/-! ### C10: cache-name round-trip (corrected)

Stable cache names encode `+` as `-`; decoding strips a trailing `-ea` and
rewrites `-ea.` before mapping `-` back to `+`, so a stable version whose
build metadata is exactly `ea`, or begins with `ea.`, is mangled by the
decoder; outside that collision the decoding inverts the encoding. -/

/-- A pattern whose first character does not occur in the string is never
replaced. -/
lemma listReplaceFirst_no_occurrence (p : Char) (ps rep : List Char) :
    ∀ s : List Char, p ∉ s → listReplaceFirst (p :: ps) rep s = s
  | [], _ => by simp [listReplaceFirst]
  | c :: cs, h => by
    have hc : c ≠ p := fun he => h (he ▸ List.mem_cons_self c cs)
    have hnp : ¬ ((p :: ps).isPrefixOf (c :: cs) = true) := by
      intro hp
      have h2 := List.isPrefixOf_iff_prefix.1 hp
      rw [List.cons_prefix_cons] at h2
      exact hc h2.1.symm
    rw [listReplaceFirst, if_neg hnp,
      listReplaceFirst_no_occurrence p ps rep cs (fun hm => h (List.mem_cons_of_mem c hm))]

/-- Replacing a single character that occurs exactly at the junction. -/
lemma listReplaceFirst_at_junction (c : Char) (rep : List Char) :
    ∀ (a b : List Char), c ∉ a →
      listReplaceFirst [c] rep (a ++ c :: b) = a ++ rep ++ b
  | [], b, _ => by
    simp [listReplaceFirst, List.isPrefixOf]
  | x :: a', b, h => by
    have hx : x ≠ c := fun he => h (he ▸ List.mem_cons_self x a')
    have hnp : ¬ (([c]).isPrefixOf (x :: (a' ++ c :: b)) = true) := by
      intro hp
      have h2 := List.isPrefixOf_iff_prefix.1 hp
      rw [List.cons_prefix_cons] at h2
      exact hx h2.1.symm
    rw [List.cons_append, listReplaceFirst, if_neg hnp,
      listReplaceFirst_at_junction c rep a' b (fun hm => h (List.mem_cons_of_mem x hm))]
    rfl

/-- A pattern starting with `-` does not match a string whose only `-`
is not followed by the pattern's tail. -/
lemma listReplaceFirst_dash_no_match (ps rep : List Char) :
    ∀ (a b : List Char), '-' ∉ a → '-' ∉ b → ¬ (ps <+: b) →
      listReplaceFirst ('-' :: ps) rep (a ++ '-' :: b) = a ++ '-' :: b
  | [], b, _, hb, hps => by
    have hnp : ¬ ((('-' :: ps)).isPrefixOf ('-' :: b) = true) := by
      intro hp
      have h2 := List.isPrefixOf_iff_prefix.1 hp
      rw [List.cons_prefix_cons] at h2
      exact hps h2.2
    rw [List.nil_append, listReplaceFirst, if_neg hnp,
      listReplaceFirst_no_occurrence '-' ps rep b hb]
  | x :: a', b, ha, hb, hps => by
    have hx : x ≠ '-' := fun he => ha (he ▸ List.mem_cons_self x a')
    have hnp : ¬ ((('-' :: ps)).isPrefixOf (x :: (a' ++ '-' :: b)) = true) := by
      intro hp
      have h2 := List.isPrefixOf_iff_prefix.1 hp
      rw [List.cons_prefix_cons] at h2
      exact hx h2.1.symm
    rw [List.cons_append, listReplaceFirst, if_neg hnp,
      listReplaceFirst_dash_no_match ps rep a' b
        (fun hm => ha (List.mem_cons_of_mem x hm)) hb hps]

/-- No `-ea` suffix when the only `-` is the junction and the tail is not
exactly `ea`. -/
lemma no_dash_ea_suffix : ∀ (a b : List Char), '-' ∉ a → '-' ∉ b →
    b ≠ ['e', 'a'] → ¬ (['-', 'e', 'a'] <:+ (a ++ '-' :: b))
  | [], b, _, hb, hne, hs => by
    rw [List.nil_append, List.suffix_cons_iff] at hs
    rcases hs with heq | hs
    · injection heq with h1 h2
      exact hne h2.symm
    · exact hb (List.IsSuffix.mem (by simp) hs)
  | x :: a', b, ha, hb, hne, hs => by
    rw [List.cons_append, List.suffix_cons_iff] at hs
    rcases hs with heq | hs
    · have h1 : '-' = x := by injection heq
      exact ha (h1 ▸ List.mem_cons_self x a')
    · exact no_dash_ea_suffix a' b (fun hm => ha (List.mem_cons_of_mem x hm)) hb hne hs

/-- No `-ea` suffix in a string without `-`. -/
lemma no_dash_ea_suffix_of_no_dash (s : List Char) (h : '-' ∉ s) :
    ¬ (['-', 'e', 'a'] <:+ s) :=
  fun hs => h (List.IsSuffix.mem (by simp) hs)

/-- The suffix strip is the identity when the suffix is absent. -/
lemma stripEaSuffixList_of_no_suffix (s : List Char)
    (h : ¬ (['-', 'e', 'a'] <:+ s)) : stripEaSuffixList s = s := by
  unfold stripEaSuffixList
  rw [if_neg (fun hb => h (List.isSuffixOf_iff_suffix.1 hb))]

/-- Counterexample to C10 as stated: the stable version `11.0.1+ea` has no
`-`, exactly one `+`, and is stable (no `-ea` in it) — yet its cache name
`11.0.1-ea` decodes to `11.0.1`, not back to `11.0.1+ea`. -/
theorem cacheVersionName_roundtrip_cex :
    jsIncludes "11.0.1+ea" "-" = false ∧
    ("11.0.1+ea".toList.count '+') = 1 ∧
    jsIncludes "11.0.1+ea" "-ea" = false ∧
    formatCacheVersionName true "11.0.1+ea" = "11.0.1-ea" ∧
    normalizeVersionString (formatCacheVersionName true "11.0.1+ea") = "11.0.1" ∧
    ("11.0.1" : String) ≠ "11.0.1+ea" :=
  ⟨by decide, by decide, by decide, by decide, by decide, by decide⟩

/-- C10 (amended): for every stable version string with no `-` and at most
one `+` whose build part (after the `+`) is neither exactly `ea` nor
beginning `ea.`, decoding the formatted cache name yields the version
back. -/
theorem cacheVersionName_roundtrip_amended :
    (∀ a b : List Char, '-' ∉ a → '-' ∉ b → '+' ∉ a → '+' ∉ b →
      b ≠ ['e', 'a'] → ¬ (['e', 'a', '.'] <+: b) →
      normalizeVersionString (formatCacheVersionName true ((a ++ '+' :: b).asString))
        = (a ++ '+' :: b).asString)
    ∧ (∀ v : List Char, '-' ∉ v → '+' ∉ v →
      normalizeVersionString (formatCacheVersionName true v.asString) = v.asString) := by
  constructor
  · intro a b hda hdb hpa hpb hne hpre
    have h1 : formatCacheVersionName true ((a ++ '+' :: b).asString)
        = (a ++ '-' :: b).asString := by
      show (listReplaceFirst "+".toList "-".toList
        ((a ++ '+' :: b).asString).toList).asString = _
      rw [show ((a ++ '+' :: b).asString).toList = a ++ '+' :: b from rfl]
      rw [show "+".toList = ['+'] from rfl, show "-".toList = ['-'] from rfl]
      rw [listReplaceFirst_at_junction '+' ['-'] a b hpa]
      rw [List.append_assoc]
      rfl
    rw [h1]
    show (listReplaceFirst "-".toList "+".toList
      ((stripEaSuffixList ((listReplaceFirst "-ea.".toList "+".toList
        (((a ++ '-' :: b).asString).toList)).asString).toList).asString).toList).asString = _
    rw [show (((a ++ '-' :: b).asString)).toList = a ++ '-' :: b from rfl]
    rw [show "-ea.".toList = ['-', 'e', 'a', '.'] from rfl,
        show "-".toList = ['-'] from rfl, show "+".toList = ['+'] from rfl]
    rw [listReplaceFirst_dash_no_match ['e', 'a', '.'] ['+'] a b hda hdb hpre]
    rw [show (((a ++ '-' :: b).asString)).toList = a ++ '-' :: b from rfl]
    rw [stripEaSuffixList_of_no_suffix (a ++ '-' :: b) (no_dash_ea_suffix a b hda hdb hne)]
    rw [show (((a ++ '-' :: b).asString)).toList = a ++ '-' :: b from rfl]
    rw [listReplaceFirst_at_junction '-' ['+'] a b hda]
    rw [List.append_assoc]
    rfl
  · intro v hdv hpv
    have h1 : formatCacheVersionName true (v.asString) = v.asString := by
      show (listReplaceFirst "+".toList "-".toList ((v.asString)).toList).asString = _
      rw [show ((v.asString)).toList = v from rfl,
          show "+".toList = ['+'] from rfl, show "-".toList = ['-'] from rfl]
      rw [listReplaceFirst_no_occurrence '+' [] ['-'] v hpv]
    rw [h1]
    show (listReplaceFirst "-".toList "+".toList
      ((stripEaSuffixList ((listReplaceFirst "-ea.".toList "+".toList
        ((v.asString)).toList).asString).toList).asString).toList).asString = _
    rw [show ((v.asString)).toList = v from rfl]
    rw [show "-ea.".toList = ['-', 'e', 'a', '.'] from rfl,
        show "-".toList = ['-'] from rfl, show "+".toList = ['+'] from rfl]
    rw [listReplaceFirst_no_occurrence '-' ['e', 'a', '.'] ['+'] v hdv]
    rw [show ((v.asString)).toList = v from rfl]
    rw [stripEaSuffixList_of_no_suffix v (no_dash_ea_suffix_of_no_dash v hdv)]
    rw [show ((v.asString)).toList = v from rfl]
    rw [listReplaceFirst_no_occurrence '-' [] ['+'] v hdv]

/-- Witness for C10 (amended) at the version `11.0.1+9`. -/
theorem cacheVersionName_roundtrip_witness :
    ('-' ∉ ['1', '1', '.', '0', '.', '1']) ∧ (['9'] : List Char) ≠ ['e', 'a'] ∧
    normalizeVersionString (formatCacheVersionName true
        ((['1', '1', '.', '0', '.', '1'] ++ '+' :: ['9']).asString))
      = (['1', '1', '.', '0', '.', '1'] ++ '+' :: ['9']).asString :=
  ⟨by decide, by decide,
   cacheVersionName_roundtrip_amended.1 ['1', '1', '.', '0', '.', '1'] ['9']
     (by decide) (by decide) (by decide) (by decide) (by decide) (by decide)⟩
